import Mathlib

/-!
Verification of the privacy-preserving logging subsystem of the `logseq-mcp`
server.  The Python sources under `src/logseq_mcp_server/` are shallowly
embedded here:

* `utils/sanitizer.py` (`LogSanitizer` and its `sanitize_*` methods),
* `logging_config.py` (`PrivacyFilter.filter`, `parse_size`, the
  configuration-resolution head of `setup_logging`),
* `logseq/client.py` (`LogseqClient._request`, `get_page_blocks`).

JSON-like Python values are modelled by the inductive `JVal`
(strings, integers, booleans, `None`, lists, dicts); Python floats are
omitted — in every code path modelled here they behave exactly like
integers (pass-through / `len()`-TypeError).  Code that can raise is
modelled in `Except String`; the error strings name the Python
exception.  Aliasing and in-place mutation (needed for the non-mutation
guarantee of `PrivacyFilter.filter`) are modelled separately by an
explicit heap of objects, at the end of the file.
-/

namespace LogseqSpec

/-- JSON-like Python values: `str`, `int`, `bool`, `None`, `list`, `dict`
(a dict is an insertion-ordered association list, keys unique in practice). -/
inductive JVal where
  | jstr (s : String)
  | jint (n : Int)
  | jbool (b : Bool)
  | jnull
  | jlist (items : List JVal)
  | jdict (entries : List (String × JVal))
deriving Repr

/-- Python truthiness (`bool(v)`) on the modelled universe. -/
def pyTruthy : JVal → Bool
  | .jstr s => !s.isEmpty
  | .jint n => n != 0
  | .jbool b => b
  | .jnull => false
  | .jlist items => !items.isEmpty
  | .jdict entries => !entries.isEmpty

/-- `isinstance(v, (dict, list))`. -/
def isDictOrList : JVal → Bool
  | .jlist _ => true
  | .jdict _ => true
  | _ => false

/-! ## Character classes of the `re` module (ASCII fragment)

`sanitizer.py` line 75 uses `re.match(r"^\w+\s+\d+\w*,\s+\d{4}$", name)`.
We model `\w`, `\s`, `\d` on their ASCII fragment (the page names the
code and its tests exercise are ASCII). -/

def isWordChar (c : Char) : Bool := c.isAlphanum || c == '_'

def isSpaceChar (c : Char) : Bool :=
  c == ' ' || c == '\t' || c == '\n' || c == '\x0b' || c == '\x0c' || c == '\r'

def isDigitChar (c : Char) : Bool := c.isDigit

/-- Matcher for the anchored journal-page pattern
`^\w+\s+\d+\w*,\s+\d{4}$` of `sanitize_page_name` (sanitizer.py:75).
Since `\w`/`\s` are disjoint and `\d ⊆ \w`, the greedy spans below are
exactly the regex's backtracking semantics; `$` also matches just before
one final newline, as in Python. -/
def journalMatch (name : String) : Bool :=
  let cs := name.data
  let (w1, r1) := cs.span isWordChar
  if w1.isEmpty then false else
  let (s1, r2) := r1.span isSpaceChar
  if s1.isEmpty then false else
  match r2 with
  | d :: r3 =>
    if !isDigitChar d then false else
    let (_, r4) := r3.span isWordChar
    match r4 with
    | ',' :: r5 =>
      let (s2, r6) := r5.span isSpaceChar
      if s2.isEmpty then false else
      match r6 with
      | [a, b, c, e] => isDigitChar a && isDigitChar b && isDigitChar c && isDigitChar e
      | [a, b, c, e, '\n'] =>
        isDigitChar a && isDigitChar b && isDigitChar c && isDigitChar e
      | _ => false
    | _ => false
  | [] => false

/-- `LogSanitizer.__init__` default `min_mask_length` (sanitizer.py:35). -/
def defaultMinMask : Nat := 3

/-- `LogSanitizer.sanitize_page_name` (sanitizer.py:44-87) on a `str`
argument.  `if not name` on a string is the emptiness test; `len`,
slicing and `//` are over code points, as in Python. -/
def sanitize_page_name_str (minMask : Nat) (name : String) : String :=
  if name.isEmpty then "[empty]"
  else if name.length ≤ minMask then name
  else if journalMatch name then "[journal_page]"
  else
    let cs := name.data
    let n := cs.length
    let visible := max 1 (n / 4)
    if n ≤ 8 then
      String.mk (cs.take 1 ++ ['*', '*', '*'] ++ cs.drop (n - 1))
    else
      String.mk (cs.take visible ++ ['*', '*', '*'] ++ cs.drop (n - visible))

/-- `sanitize_page_name` with its `Optional[str]` signature. -/
def sanitize_page_name (minMask : Nat) : Option String → String
  | none => "[empty]"
  | some s => sanitize_page_name_str minMask s

/-- `LogSanitizer.sanitize_content` (sanitizer.py:89-100). -/
def sanitize_content : Option String → String
  | none => "[empty]"
  | some s =>
    if s.isEmpty then "[empty]"
    else "[content_" ++ toString s.length ++ "_chars]"

/-- `LogSanitizer.sanitize_query` (sanitizer.py:201-212). -/
def sanitize_query : Option String → String
  | none => "[empty]"
  | some s =>
    if s.isEmpty then "[empty]"
    else "[datalog_query_" ++ toString s.length ++ "_chars]"

/-! ## SHA-256 (for `sanitize_block_id`)

`sanitize_block_id` computes `hashlib.sha256(block_id.encode()).hexdigest()[:6]`.
We embed UTF-8 encoding and SHA-256 over `Nat` bytes/words (mod 2^32). -/

/-- UTF-8 encoding of one code point, as a list of byte values. -/
def utf8EncodeChar (c : Char) : List Nat :=
  let n := c.toNat
  if n < 0x80 then [n]
  else if n < 0x800 then
    [0xC0 ||| (n >>> 6), 0x80 ||| (n &&& 0x3F)]
  else if n < 0x10000 then
    [0xE0 ||| (n >>> 12), 0x80 ||| ((n >>> 6) &&& 0x3F), 0x80 ||| (n &&& 0x3F)]
  else
    [0xF0 ||| (n >>> 18), 0x80 ||| ((n >>> 12) &&& 0x3F),
     0x80 ||| ((n >>> 6) &&& 0x3F), 0x80 ||| (n &&& 0x3F)]

/-- `s.encode()` — UTF-8 bytes of a string. -/
def utf8Encode (s : String) : List Nat := s.data.flatMap utf8EncodeChar

def w32 (n : Nat) : Nat := n % 4294967296

def rotr32 (k x : Nat) : Nat := w32 ((x >>> k) ||| (x <<< (32 - k)))

def shaBigSigma0 (x : Nat) : Nat := (rotr32 2 x) ^^^ (rotr32 13 x) ^^^ (rotr32 22 x)
def shaBigSigma1 (x : Nat) : Nat := (rotr32 6 x) ^^^ (rotr32 11 x) ^^^ (rotr32 25 x)
def shaSmallSigma0 (x : Nat) : Nat := (rotr32 7 x) ^^^ (rotr32 18 x) ^^^ (x >>> 3)
def shaSmallSigma1 (x : Nat) : Nat := (rotr32 17 x) ^^^ (rotr32 19 x) ^^^ (x >>> 10)

def shaCh (x y z : Nat) : Nat := (x &&& y) ^^^ ((0xFFFFFFFF ^^^ x) &&& z)
def shaMaj (x y z : Nat) : Nat := (x &&& y) ^^^ (x &&& z) ^^^ (y &&& z)

def shaK : List Nat :=
  [1116352408, 1899447441, 3049323471, 3921009573, 961987163, 1508970993,
   2453635748, 2870763221, 3624381080, 310598401, 607225278, 1426881987,
   1925078388, 2162078206, 2614888103, 3248222580, 3835390401, 4022224774,
   264347078, 604807628, 770255983, 1249150122, 1555081692, 1996064986,
   2554220882, 2821834349, 2952996808, 3210313671, 3336571891, 3584528711,
   113926993, 338241895, 666307205, 773529912, 1294757372, 1396182291,
   1695183700, 1986661051, 2177026350, 2456956037, 2730485921, 2820302411,
   3259730800, 3345764771, 3516065817, 3600352804, 4094571909, 275423344,
   430227734, 506948616, 659060556, 883997877, 958139571, 1322822218,
   1537002063, 1747873779, 1955562222, 2024104815, 2227730452, 2361852424,
   2428436474, 2756734187, 3204031479, 3329325298]

structure ShaState where
  a : Nat
  b : Nat
  c : Nat
  d : Nat
  e : Nat
  f : Nat
  g : Nat
  h : Nat

def shaInit : ShaState :=
  ⟨1779033703, 3144134277, 1013904242, 2773480762,
   1359893119, 2600822924, 528734635, 1541459225⟩

/-- One compression round, consuming `k[i] + w[i]`. -/
def shaRound (s : ShaState) (kw : Nat) : ShaState :=
  let t1 := w32 (s.h + shaBigSigma1 s.e + shaCh s.e s.f s.g + kw)
  let t2 := w32 (shaBigSigma0 s.a + shaMaj s.a s.b s.c)
  ⟨w32 (t1 + t2), s.a, s.b, s.c, w32 (s.d + t1), s.e, s.f, s.g⟩

/-- Big-endian 32-bit word from 4 bytes. -/
def wordOfBytes (b0 b1 b2 b3 : Nat) : Nat :=
  (((b0 * 256 + b1) * 256 + b2) * 256 + b3)

/-- The 16 initial schedule words of a 64-byte block. -/
def blockWords : List Nat → List Nat
  | b0 :: b1 :: b2 :: b3 :: rest => wordOfBytes b0 b1 b2 b3 :: blockWords rest
  | _ => []

/-- Extend the message schedule by `k` more words. -/
def extendSchedule (ws : List Nat) : Nat → List Nat
  | 0 => ws
  | k + 1 =>
    let i := ws.length
    let next := w32 (shaSmallSigma1 (ws.getD (i - 2) 0) + ws.getD (i - 7) 0 +
                     shaSmallSigma0 (ws.getD (i - 15) 0) + ws.getD (i - 16) 0)
    extendSchedule (ws ++ [next]) k

def compressBlock (s : ShaState) (block : List Nat) : ShaState :=
  let W := extendSchedule (blockWords block) 48
  let t := (shaK.zip W).foldl (fun st (kw : Nat × Nat) => shaRound st (kw.1 + kw.2)) s
  ⟨w32 (s.a + t.a), w32 (s.b + t.b), w32 (s.c + t.c), w32 (s.d + t.d),
   w32 (s.e + t.e), w32 (s.f + t.f), w32 (s.g + t.g), w32 (s.h + t.h)⟩

/-- Split into 64-byte chunks. -/
def chunk64 (bs : List Nat) : List (List Nat) :=
  if h : bs = [] then []
  else (bs.take 64) :: chunk64 (bs.drop 64)
termination_by bs.length
decreasing_by
  have hpos : 0 < bs.length := List.length_pos.mpr h
  simp [List.length_drop]
  omega

/-- Big-endian 8-byte encoding (for the 64-bit bit length). -/
def lenBytes64 (n : Nat) : List Nat :=
  [n >>> 56 % 256, n >>> 48 % 256, n >>> 40 % 256, n >>> 32 % 256,
   n >>> 24 % 256, n >>> 16 % 256, n >>> 8 % 256, n % 256]

/-- SHA-256 padding. -/
def shaPad (msg : List Nat) : List Nat :=
  let L := msg.length
  let zeros := (119 - L % 64) % 64
  msg ++ [0x80] ++ List.replicate zeros 0 ++ lenBytes64 (L * 8)

/-- Big-endian bytes of one 32-bit word. -/
def wordBytes (w : Nat) : List Nat :=
  [w >>> 24 % 256, w >>> 16 % 256, w >>> 8 % 256, w % 256]

/-- SHA-256 digest (32 bytes) of a byte string. -/
def sha256 (msg : List Nat) : List Nat :=
  let s := (chunk64 (shaPad msg)).foldl compressBlock shaInit
  wordBytes s.a ++ wordBytes s.b ++ wordBytes s.c ++ wordBytes s.d ++
  wordBytes s.e ++ wordBytes s.f ++ wordBytes s.g ++ wordBytes s.h

/-- The lower-case hex alphabet of `hexdigest()`. -/
def hexDigits : List Char := "0123456789abcdef".data

/-- Membership in the hex alphabet. -/
def isHexChar (c : Char) : Bool := hexDigits.contains c

/-- Lower-case hex digit (only ever applied to values below 16). -/
def hexChar (n : Nat) : Char := hexDigits.getD n 'f'

def byteHex (b : Nat) : List Char := [hexChar (b / 16 % 16), hexChar (b % 16)]

/-- `.hexdigest()` characters of a byte list. -/
def hexOfBytes (bs : List Nat) : List Char := bs.flatMap byteHex

/-- `LogSanitizer.sanitize_block_id` (sanitizer.py:102-114) on its
`Optional[str]` argument. -/
def sanitize_block_id : Option String → String
  | none => "[empty]"
  | some s =>
    if s.isEmpty then "[empty]"
    else "block_" ++ String.mk ((hexOfBytes (sha256 (utf8Encode s))).take 6)

/-! ## `sanitize_path` (sanitizer.py:116-145)

Each of the six patterns is `re.sub(<literal><capture of 1+ non-separator
chars>, <literal>***, s, flags=IGNORECASE)`; `subStars` is that scanner:
leftmost match, replace, continue after the match. -/

/-- Case-insensitive prefix test. -/
def matchesCI : List Char → List Char → Bool
  | [], _ => true
  | _ :: _, [] => false
  | p :: ps, c :: cs => (p.toLower == c.toLower) && matchesCI ps cs

def subStars (pre : List Char) (sep : Char) : List Char → List Char
  | [] => []
  | c :: rest =>
    if matchesCI pre (c :: rest) then
      let after := (c :: rest).drop pre.length
      if h : (after.takeWhile (fun x => !(x == sep))).isEmpty then
        c :: subStars pre sep rest
      else
        pre ++ ['*', '*', '*'] ++
          subStars pre sep (after.dropWhile (fun x => !(x == sep)))
    else c :: subStars pre sep rest
termination_by cs => cs.length
decreasing_by
  · simp
  · have hsum := congrArg List.length
      (List.takeWhile_append_dropWhile (p := fun x => !(x == sep))
        (l := (c :: rest).drop pre.length))
    simp only [List.length_append] at hsum
    have hrun : ((((c :: rest).drop pre.length)).takeWhile
        (fun x => !(x == sep))).length ≠ 0 := by
      intro h0
      have hnil : ((((c :: rest).drop pre.length)).takeWhile
          (fun x => !(x == sep))) = [] := List.length_eq_zero.mp h0
      exact h (by rw [hnil]; rfl)
    have hafter : (((c :: rest).drop pre.length)).length ≤ rest.length + 1 := by
      simp [List.length_drop]
    simp only [List.length_cons]
    omega
  · simp

/-- The six `(pattern, replacement)` pairs of `sanitize_path`, reduced to
(canonical-case literal, separator excluded from the capture). -/
def pathPatterns : List (List Char × Char) :=
  [("/home/".data, '/'), ("/Users/".data, '/'),
   ("C:\\Users\\".data, '\\'), ("\\Users\\".data, '\\'),
   ("/graphs/".data, '/'), ("\\graphs\\".data, '\\')]

def sanitize_path_str (p : String) : String :=
  String.mk (pathPatterns.foldl (fun cs pat => subStars pat.1 pat.2 cs) p.data)

/-! ## Python `repr`/`str` of JSON-like values (used by
`sanitize_properties` for `len(str(value))`). -/

/-- `repr` of a Python string: single quotes, double quotes when the
string has a single quote but no double quote; common escapes.
(Non-printable characters beyond these are not modelled.) -/
def pyReprStr (s : String) : String :=
  let q : Char := if s.data.contains '\'' && !(s.data.contains '"') then '"' else '\''
  let esc := s.data.flatMap (fun c =>
    if c == '\\' then ['\\', '\\']
    else if c == q then ['\\', q]
    else if c == '\n' then ['\\', 'n']
    else if c == '\r' then ['\\', 'r']
    else if c == '\t' then ['\\', 't']
    else [c])
  String.mk (q :: esc ++ [q])

mutual

def pyRepr : JVal → String
  | .jstr s => pyReprStr s
  | .jint n => toString n
  | .jbool true => "True"
  | .jbool false => "False"
  | .jnull => "None"
  | .jlist items => "[" ++ pyReprList items ++ "]"
  | .jdict kvs => "\x7b" ++ pyReprEntries kvs ++ "\x7d"

def pyReprList : List JVal → String
  | [] => ""
  | [v] => pyRepr v
  | v :: rest => pyRepr v ++ ", " ++ pyReprList rest

def pyReprEntries : List (String × JVal) → String
  | [] => ""
  | [(k, v)] => pyReprStr k ++ ": " ++ pyRepr v
  | (k, v) :: rest => pyReprStr k ++ ": " ++ pyRepr v ++ ", " ++ pyReprEntries rest

end

/-- Python `str()` on the modelled universe (`str` of a container is its
`repr`). -/
def pyStr : JVal → String
  | .jstr s => s
  | v => pyRepr v

/-! ## `sanitize_properties` (sanitizer.py:147-199). -/

def sensitiveKeys : List String :=
  ["password", "token", "secret", "key", "api_key", "email", "phone", "ssn",
   "credit_card"]

def partialKeys : List String := ["url", "link", "website", "domain"]

/-- Substring containment (Python `sub in hay`). -/
def listContainsSub (sub : List Char) : List Char → Bool
  | [] => sub.isEmpty
  | c :: rest => sub.isPrefixOf (c :: rest) || listContainsSub sub rest

def strContainsSub (hay sub : String) : Bool := listContainsSub sub.data hay.data

/-- Leftmost match of `re.search(r"https?://([^/]+)", s)`, returning the
captured host. -/
def findDomain : List Char → Option (List Char)
  | [] => none
  | c :: rest =>
    if "https://".data.isPrefixOf (c :: rest) then
      let run := ((c :: rest).drop 8).takeWhile (fun x => !(x == '/'))
      if run.isEmpty then findDomain rest else some run
    else if "http://".data.isPrefixOf (c :: rest) then
      let run := ((c :: rest).drop 7).takeWhile (fun x => !(x == '/'))
      if run.isEmpty then findDomain rest else some run
    else findDomain rest

/-- `str.lower()` / `str.upper()` (structural, so that they evaluate in
the kernel; ASCII case mapping, which is all the keys and unit suffixes
here use). -/
def pyLower (s : String) : String := String.mk (s.data.map Char.toLower)

def pyUpper (s : String) : String := String.mk (s.data.map Char.toUpper)

/-- One iteration of the `for key, value in properties.items()` loop of
`sanitize_properties`. -/
def sanitizePropValue (key : String) (value : JVal) : JVal :=
  let lowerKey := pyLower key
  if sensitiveKeys.any (fun s => strContainsSub lowerKey s) then .jstr "[REDACTED]"
  else if partialKeys.any (fun s => strContainsSub lowerKey s) then
    match value with
    | .jstr s =>
      if s.length > 10 then
        match findDomain s.data with
        | some dom => .jstr (String.mk dom ++ "/***")
        | none => .jstr (String.mk (s.data.take 10) ++ "***")
      else value
    | _ => value
  else
    match value with
    | .jstr s =>
      if s.length > 50 then .jstr ("[string_" ++ toString s.length ++ "_chars]")
      else value
    | .jlist items =>
      if (pyStr value).length > 100 then
        .jstr ("[list_with_" ++ toString items.length ++ "_items]")
      else value
    | .jdict kvs =>
      if (pyStr value).length > 100 then
        .jstr ("[dict_with_" ++ toString kvs.length ++ "_items]")
      else value
    | _ => value

/-! ## The `sanitize_*` methods as dispatched on arbitrary values

`sanitize_dict` dispatches a rule method on any scalar found under a
rule key, so each method is modelled on all of `JVal`, raising exactly
where the Python does (`len()` of `int`/`bool`, `.encode`/`.items` of
non-objects). -/

def sanitize_page_name_v (minMask : Nat) (v : JVal) : Except String JVal :=
  if !pyTruthy v then .ok (.jstr "[empty]")
  else match v with
    | .jstr s => .ok (.jstr (sanitize_page_name_str minMask s))
    | .jlist items =>
      if items.length ≤ minMask then .ok v
      else .error "TypeError: expected string or bytes-like object"
    | .jdict kvs =>
      if kvs.length ≤ minMask then .ok v
      else .error "TypeError: expected string or bytes-like object"
    | _ => .error "TypeError: object has no len"

def sanitize_content_v (v : JVal) : Except String JVal :=
  if !pyTruthy v then .ok (.jstr "[empty]")
  else match v with
    | .jstr s => .ok (.jstr ("[content_" ++ toString s.length ++ "_chars]"))
    | .jlist items => .ok (.jstr ("[content_" ++ toString items.length ++ "_chars]"))
    | .jdict kvs => .ok (.jstr ("[content_" ++ toString kvs.length ++ "_chars]"))
    | _ => .error "TypeError: object has no len"

def sanitize_query_v (v : JVal) : Except String JVal :=
  if !pyTruthy v then .ok (.jstr "[empty]")
  else match v with
    | .jstr s => .ok (.jstr ("[datalog_query_" ++ toString s.length ++ "_chars]"))
    | .jlist items => .ok (.jstr ("[datalog_query_" ++ toString items.length ++ "_chars]"))
    | .jdict kvs => .ok (.jstr ("[datalog_query_" ++ toString kvs.length ++ "_chars]"))
    | _ => .error "TypeError: object has no len"

def sanitize_block_id_v (v : JVal) : Except String JVal :=
  if !pyTruthy v then .ok (.jstr "[empty]")
  else match v with
    | .jstr s => .ok (.jstr (sanitize_block_id (some s)))
    | _ => .error "AttributeError: object has no attribute encode"

def sanitize_path_v (v : JVal) : String :=
  if !pyTruthy v then "[empty]" else sanitize_path_str (pyStr v)

def sanitize_properties_v (v : JVal) : Except String JVal :=
  if !pyTruthy v then .ok (.jdict [])
  else match v with
    | .jdict kvs => .ok (.jdict (kvs.map (fun kv => (kv.1, sanitizePropValue kv.1 kv.2))))
    | _ => .error "AttributeError: object has no attribute items"

/-! ## `sanitize_dict` (sanitizer.py:214-279). -/

/-- The default rule table installed when `rules` is falsy
(sanitizer.py:239-252). -/
def defaultRules : List (String × String) :=
  [("page_name", "page_name"), ("page", "page_name"), ("name", "page_name"),
   ("content", "content"), ("block_content", "content"),
   ("path", "path"), ("file_path", "path"),
   ("properties", "properties"), ("query", "query"),
   ("block_id", "block_id"), ("uuid", "block_id")]

/-- `method_name = f"sanitize_{rules[key]}"; getattr(self, method_name)` —
an unknown method name (`hasattr` false) keeps the value unchanged. -/
def dispatchRule (minMask : Nat) (ruleName : String) (v : JVal) : Except String JVal :=
  if ruleName = "page_name" then sanitize_page_name_v minMask v
  else if ruleName = "content" then sanitize_content_v v
  else if ruleName = "path" then .ok (.jstr (sanitize_path_v v))
  else if ruleName = "properties" then sanitize_properties_v v
  else if ruleName = "query" then sanitize_query_v v
  else if ruleName = "block_id" then sanitize_block_id_v v
  else .ok v

mutual

/-- Body of the `for key, value in data.items()` loop of `sanitize_dict`
(sanitizer.py:255-277): the value stored under `key` in `sanitized`. -/
def sanitizeEntryVal (minMask : Nat) (rules : List (String × String))
    (k : String) (v : JVal) : Except String JVal :=
  if (List.lookup k rules).isSome && !isDictOrList v then
    dispatchRule minMask ((List.lookup k rules).getD "") v
  else
    match v with
    | .jdict kvs => (sanitizeEntries minMask rules kvs).map JVal.jdict
    | .jlist (x :: xs) =>
      match x with
      | .jdict _ => (sanitizeListItems minMask rules (x :: xs)).map JVal.jlist
      | _ => .ok (.jstr ("[list_with_" ++ toString (x :: xs).length ++ "_items]"))
    | .jstr _ => .ok v
    | .jint _ => .ok v
    | .jbool _ => .ok v
    | .jnull => .ok v
    | .jlist [] => .ok (.jstr "[list]")

def sanitizeEntries (minMask : Nat) (rules : List (String × String)) :
    List (String × JVal) → Except String (List (String × JVal))
  | [] => .ok []
  | (k, v) :: rest => do
    let v2 ← sanitizeEntryVal minMask rules k v
    let rest2 ← sanitizeEntries minMask rules rest
    pure ((k, v2) :: rest2)

/-- `[self.sanitize_dict(item, rules) for item in value]`; `sanitize_dict`
of a non-dict item raises on `item.items()`. -/
def sanitizeListItems (minMask : Nat) (rules : List (String × String)) :
    List JVal → Except String (List JVal)
  | [] => .ok []
  | item :: rest => do
    let d ← match item with
      | .jdict kvs => (sanitizeEntries minMask rules kvs).map JVal.jdict
      | _ => .error "AttributeError: object has no attribute items"
    let rest2 ← sanitizeListItems minMask rules rest
    pure (d :: rest2)

end

/-- `LogSanitizer.sanitize_dict(data, rules)` on a dict argument.  A falsy
`rules` (`None` or the empty mapping) selects the default table. -/
def sanitize_dict (minMask : Nat) (rules : List (String × String))
    (data : List (String × JVal)) : Except String (List (String × JVal)) :=
  sanitizeEntries minMask (if rules.isEmpty then defaultRules else rules) data

/-- `self.sanitizer.sanitize_dict(v)` as invoked by `PrivacyFilter.filter`
on the attached `arguments` value: a non-dict raises on `data.items()`. -/
def sanitize_dict_val (v : JVal) : Except String JVal :=
  match v with
  | .jdict kvs => (sanitize_dict defaultMinMask [] kvs).map JVal.jdict
  | _ => .error "AttributeError: object has no attribute items"


/-! ### When does `sanitize_dict` raise?  A decidable mirror of the raising
branches of the recursive walk: `dispatchSafe` says whether the dispatched
sanitizer returns normally on a (scalar, since rule dispatch is guarded by
`not isinstance(value, (dict, list))`) value, and `entrySafe` /
`entriesSafe` / `itemsSafe` follow the recursion of `sanitize_dict`. -/

def dispatchSafe (ruleName : String) (v : JVal) : Bool :=
  !pyTruthy v ||
  (match v with
   | .jstr _ => !(ruleName == "properties")
   | _ => !(ruleName == "page_name" || ruleName == "content" || ruleName == "query" ||
            ruleName == "block_id" || ruleName == "properties"))

mutual

def entrySafe (rules : List (String × String)) (k : String) (v : JVal) : Bool :=
  if (List.lookup k rules).isSome && !isDictOrList v then
    dispatchSafe ((List.lookup k rules).getD "") v
  else
    match v with
    | .jdict kvs => entriesSafe rules kvs
    | .jlist (x :: xs) =>
      match x with
      | .jdict _ => itemsSafe rules (x :: xs)
      | _ => true
    | _ => true

def entriesSafe (rules : List (String × String)) : List (String × JVal) → Bool
  | [] => true
  | (k, v) :: rest => entrySafe rules k v && entriesSafe rules rest

def itemsSafe (rules : List (String × String)) : List JVal → Bool
  | [] => true
  | item :: rest =>
    (match item with
     | .jdict kvs => entriesSafe rules kvs
     | _ => false) && itemsSafe rules rest

end

/-! ## Message-pattern rewriting of `PrivacyFilter.filter`
(logging_config.py:57-84)

Five `re.sub(pattern, handler, record.msg)` passes, applied in order.
Each pattern is a literal followed by one greedy capture
(`['\"]([^'\"]+)['\"]` after `page: `, or `([^'\"]+)` / `(.+)` after the
literal); the scanners below implement leftmost-match / replace /
continue-after-match, exactly `re.sub`. -/

def isQuoteChar (c : Char) : Bool := c == '\'' || c == '"'

/-- `re.sub` for `<lit>['\"]([^'\"]+)['\"]` with replacement
`<lit>'<san(group 1)>'` (the `page: '...'` pattern). -/
def passQuoted (lit : List Char) (san : String → String) : List Char → List Char
  | [] => []
  | c :: rest =>
    if lit.isPrefixOf (c :: rest) then
      let after := (c :: rest).drop lit.length
      match hq : after with
      | q :: a2 =>
        if isQuoteChar q then
          let run := a2.takeWhile (fun x => !isQuoteChar x)
          if hr : run.isEmpty then c :: passQuoted lit san rest
          else
            match ht : a2.dropWhile (fun x => !isQuoteChar x) with
            | _ :: tl2 =>
              lit ++ '\'' :: (san (String.mk run)).data ++ '\'' ::
                passQuoted lit san tl2
            | [] => c :: passQuoted lit san rest
        else c :: passQuoted lit san rest
      | [] => c :: passQuoted lit san rest
    else c :: passQuoted lit san rest
termination_by cs => cs.length
decreasing_by
  all_goals first
  | (simp; done)
  | (have h1 : a2.length < rest.length + 1 := by
       have h2 : after.length ≤ (c :: rest).length := by
         simp [after, List.length_drop]
       rw [hq] at h2
       simp only [List.length_cons] at h2 ⊢
       omega
     have h3 : tl2.length < a2.length := by
       have h4 := congrArg List.length
         (List.takeWhile_append_dropWhile (p := fun x => !isQuoteChar x) (l := a2))
       rw [ht] at h4
       simp only [List.length_append, List.length_cons] at h4
       omega
     simp only [List.length_cons]
     omega)

/-- `re.sub` for `<lit>(<run>+)` with replacement `<lit><repl(group 1)>`,
where the capture is a maximal nonempty run of characters not satisfying
`stop` (`[^'\"]+`, or `.+` with `stop` = newline). -/
def passRun (lit : List Char) (stop : Char → Bool) (repl : String → String) :
    List Char → List Char
  | [] => []
  | c :: rest =>
    if lit.isPrefixOf (c :: rest) then
      let after := (c :: rest).drop lit.length
      if h : (after.takeWhile (fun x => !stop x)).isEmpty then
        c :: passRun lit stop repl rest
      else
        lit ++ (repl (String.mk (after.takeWhile (fun x => !stop x)))).data ++
          passRun lit stop repl (after.dropWhile (fun x => !stop x))
    else c :: passRun lit stop repl rest
termination_by cs => cs.length
decreasing_by
  · simp
  · have hsum := congrArg List.length
      (List.takeWhile_append_dropWhile (p := fun x => !stop x)
        (l := (c :: rest).drop lit.length))
    simp only [List.length_append] at hsum
    have hrun : (((c :: rest).drop lit.length).takeWhile
        (fun x => !stop x)).length ≠ 0 := by
      intro h0
      have hnil : (((c :: rest).drop lit.length).takeWhile
          (fun x => !stop x)) = [] := List.length_eq_zero.mp h0
      exact h (by rw [hnil]; rfl)
    have hafter : (((c :: rest).drop lit.length)).length ≤ rest.length + 1 := by
      simp [List.length_drop]
    simp only [List.length_cons]
    omega
  · simp

/-- The five ordered pattern substitutions of `PrivacyFilter.filter`
(logging_config.py:76-84), with the default-configured sanitizer
(`LogSanitizer()` of `PrivacyFilter.__init__`). -/
def sanitizeMessage (msg : String) : String :=
  let s1 := passQuoted "page: ".data (sanitize_page_name_str defaultMinMask) msg.data
  let s2 := passRun "Getting page: ".data isQuoteChar
    (sanitize_page_name_str defaultMinMask) s1
  let s3 := passRun "Creating page: ".data isQuoteChar
    (sanitize_page_name_str defaultMinMask) s2
  let s4 := passRun "Searching pages with query: ".data (fun x => x == '\n')
    (fun g => sanitize_query (some g)) s3
  let s5 := passRun "Executing Datalog query: ".data (fun x => x == '\n')
    (fun g => sanitize_query (some g)) s4
  String.mk s5

/-! ## `PrivacyFilter.filter` (logging_config.py:40-121), value level

This model captures the values of the record's fields; the in-place
`copy.deepcopy` discipline (non-mutation of caller-owned structures) is
modelled separately by the heap embedding at the end of the file, where
`deepcopy` is observable.  At the value level a deep copy is the
identity. -/

inductive LoggingMode where
  | PRIVACY
  | DEBUG
  | MINIMAL
deriving DecidableEq, Repr

/-- The fields of a `logging.LogRecord` that `PrivacyFilter.filter`
consults.  `arguments = none` / `result = none` model an absent
attribute (`hasattr` false). -/
structure LogRec where
  levelno : Nat
  msg : String
  arguments : Option JVal := none
  result : Option JVal := none
deriving Repr

/-- `logging.WARNING`. -/
def logWARNING : Nat := 30

/-- Python dict assignment `kvs[key] = v` for a key already present. -/
def updateEntry (kvs : List (String × JVal)) (key : String) (v : JVal) :
    List (String × JVal) :=
  kvs.map (fun kv => if kv.1 == key then (kv.1, v) else kv)

/-- The `result` branch of `PrivacyFilter.filter`
(logging_config.py:97-119), acting on the deep-copied mapping. -/
def resultSanitize (kvs : List (String × JVal)) :
    Except String (List (String × JVal)) := do
  let kvs1 ← match List.lookup "page" kvs with
    | some (.jdict pkvs) =>
      match List.lookup "originalName" pkvs with
      | some ov => do
        let nv ← sanitize_page_name_v defaultMinMask ov
        pure (updateEntry kvs "page" (.jdict (updateEntry pkvs "originalName" nv)))
      | none => pure kvs
    | _ => pure kvs
  let kvs2 := match List.lookup "pages" kvs1 with
    | some (.jlist items) =>
      updateEntry kvs1 "pages"
        (.jstr ("[list_with_" ++ toString items.length ++ "_pages]"))
    | _ => kvs1
  let kvs3 := match List.lookup "results" kvs2 with
    | some (.jlist items) =>
      updateEntry kvs2 "results"
        (.jstr ("[list_with_" ++ toString items.length ++ "_results]"))
    | _ => kvs2
  pure kvs3

/-- `PrivacyFilter.filter(record)`: the returned boolean and the record's
field values on return.  A raised exception is `.error`. -/
def privacyFilter (mode : LoggingMode) (r : LogRec) :
    Except String (Bool × LogRec) :=
  if mode = .MINIMAL ∧ r.levelno < logWARNING then .ok (false, r)
  else if mode = .PRIVACY then do
    let r1 := { r with msg := sanitizeMessage r.msg }
    let r2 ← match r1.arguments with
      | some a =>
        if pyTruthy a then do
          let a2 ← sanitize_dict_val a
          pure { r1 with arguments := some a2 }
        else pure r1
      | none => pure r1
    let r3 ← match r2.result with
      | some (.jdict kvs) => do
        let kvs2 ← resultSanitize kvs
        pure { r2 with result := some (JVal.jdict kvs2) }
      | _ => pure r2
    .ok (true, r3)
  else .ok (true, r)

/-! ## Configuration resolution (logging_config.py:175-234)

`parse_size` and the mode / retention / max-size resolution head of
`setup_logging`.  Python `int(...)` / `LoggingMode(...)` raising
`ValueError` is modelled in `Except`; the resolvers catch it and are
total — that totality is the model of "never raised to the caller". -/

def stripWS (cs : List Char) : List Char :=
  ((cs.dropWhile isSpaceChar).reverse.dropWhile isSpaceChar).reverse

/-- Digit run with single underscores between digits (Python
`int("1_0") == 10`). -/
def pyDigitsAux (acc : Nat) : List Char → Option Nat
  | [] => some acc
  | c :: rest =>
    if c.isDigit then pyDigitsAux (acc * 10 + (c.toNat - 48)) rest
    else if c == '_' then
      match rest with
      | d :: rest2 =>
        if d.isDigit then pyDigitsAux (acc * 10 + (d.toNat - 48)) rest2 else none
      | [] => none
    else none

def pyDigits : List Char → Option Nat
  | [] => none
  | c :: rest => if c.isDigit then pyDigitsAux (c.toNat - 48) rest else none

/-- Python `int(s)` on a decimal string: strip, optional sign, digits. -/
def pyInt (s : String) : Except String Int :=
  let cs := stripWS s.data
  match cs with
  | '+' :: rest =>
    match pyDigits rest with
    | some n => .ok (Int.ofNat n)
    | none => .error "ValueError: invalid literal for int"
  | '-' :: rest =>
    match pyDigits rest with
    | some n => .ok (-(Int.ofNat n))
    | none => .error "ValueError: invalid literal for int"
  | _ =>
    match pyDigits cs with
    | some n => .ok (Int.ofNat n)
    | none => .error "ValueError: invalid literal for int"

/-- `str.endswith` and suffix removal, structurally on the char list. -/
def strEndsWith (s suffix : String) : Bool :=
  suffix.data.reverse.isPrefixOf s.data.reverse

def strDropRight (s : String) (n : Nat) : String :=
  String.mk (s.data.take (s.data.length - n))

/-- `parse_size` (logging_config.py:175-185). -/
def parse_size (sizeStr : String) : Except String Int :=
  let t := String.mk (stripWS ((pyUpper sizeStr).data))
  if strEndsWith t "GB" then (pyInt (strDropRight t 2)).map (· * (1024 * 1024 * 1024))
  else if strEndsWith t "MB" then (pyInt (strDropRight t 2)).map (· * (1024 * 1024))
  else if strEndsWith t "KB" then (pyInt (strDropRight t 2)).map (· * 1024)
  else pyInt t

/-- The environment variables consulted by `setup_logging` that the
modelled resolution head reads (`none` = unset). -/
structure LogEnv where
  logMode : Option String := none
  logRetention : Option String := none
  logMaxSize : Option String := none

/-- `LoggingMode(value)` — lookup by enum value, `ValueError` otherwise. -/
def parseLoggingMode (s : String) : Except String LoggingMode :=
  if s = "privacy" then .ok .PRIVACY
  else if s = "debug" then .ok .DEBUG
  else if s = "minimal" then .ok .MINIMAL
  else .error "ValueError: not a valid LoggingMode"

/-- `os.getenv("LOGSEQ_MCP_LOG_MODE", log_mode or "privacy")`. -/
def envModeString (env : LogEnv) (log_mode : Option String) : String :=
  match env.logMode with
  | some s => s
  | none =>
    match log_mode with
    | some m => if m.isEmpty then "privacy" else m
    | none => "privacy"

/-- `mode = LoggingMode(env_mode.lower())` with the `except ValueError`
fallback (logging_config.py:215-218). -/
def resolveMode (env : LogEnv) (log_mode : Option String) : LoggingMode :=
  match parseLoggingMode (pyLower (envModeString env log_mode)) with
  | .ok m => m
  | .error _ => .PRIVACY

/-- Retention-days resolution (logging_config.py:221-225): a truthy
environment string is parsed with `int`, `ValueError` keeps the
argument. -/
def resolveRetention (env : LogEnv) (retention_days : Option Int) : Option Int :=
  match env.logRetention with
  | some es =>
    if es.isEmpty then retention_days
    else
      match pyInt es with
      | .ok v => some v
      | .error _ => retention_days
  | none => retention_days

/-- Max-file-size resolution (logging_config.py:228-234): `None` becomes
the 10 MiB default, then a truthy environment string is parsed with
`parse_size`, `ValueError` keeps the current value. -/
def resolveMaxFileSize (env : LogEnv) (max_file_size : Option Int) : Int :=
  let base : Int :=
    match max_file_size with
    | none => 10 * 1024 * 1024
    | some v => v
  match env.logMaxSize with
  | some es =>
    if es.isEmpty then base
    else
      match parse_size es with
      | .ok v => v
      | .error _ => base
  | none => base

/-! ## `LogseqClient` (logseq/client.py), logging + error propagation

`_request` and `get_page_blocks`, as functions of the upstream call's
outcome.  Emitted log records are modelled by tagged events carrying the
severity and whether `exc_info=True` (a full traceback) was requested. -/

inductive Upstream where
  | success (body : JVal)
  | httpStatusError (status : Nat) (text : String)
  | transportError (msg : String)

def Upstream.isFailure : Upstream → Bool
  | .success _ => false
  | .httpStatusError _ _ => true
  | .transportError _ => true

inductive LogEvent where
  | debugRequest (action : String)
  | infoPayload
  | debugResponse (action : String)
  | infoResponsePreview
  | errorHTTP (action : String) (excInfo : Bool)
  | errorRequestFailed (action : String) (excInfo : Bool)
  | warnUnexpectedBlocksType
  | errorPageBlocks (name : String) (excInfo : Bool)
deriving Repr, DecidableEq

def LogEvent.levelno : LogEvent → Nat
  | .debugRequest _ => 10
  | .infoPayload => 20
  | .debugResponse _ => 10
  | .infoResponsePreview => 20
  | .errorHTTP _ _ => 40
  | .errorRequestFailed _ _ => 40
  | .warnUnexpectedBlocksType => 30
  | .errorPageBlocks _ _ => 40

def LogEvent.hasTrace : LogEvent → Bool
  | .errorHTTP _ e => e
  | .errorRequestFailed _ e => e
  | .errorPageBlocks _ e => e
  | _ => false

/-- `LogseqClient._request` (client.py:52-123): the log events it emits
and the value it returns (`.error` = the exception re-raised by the
bare `raise`). -/
def clientRequest (action : String) (up : Upstream) :
    List LogEvent × Except String JVal :=
  let pre := [LogEvent.debugRequest action, LogEvent.infoPayload]
  match up with
  | .success body =>
    (pre ++ [.debugResponse action, .infoResponsePreview], .ok body)
  | .httpStatusError status text =>
    (pre ++ [.errorHTTP action true],
     .error ("HTTPStatusError " ++ toString status ++ ": " ++ text))
  | .transportError m =>
    (pre ++ [.errorRequestFailed action true], .error m)

/-- `LogseqClient.get_page_blocks` (client.py:266-288). -/
def getPageBlocks (name : String) (up : Upstream) :
    List LogEvent × Except String JVal :=
  let step := clientRequest "logseq.Editor.getPageBlocksTree" up
  match step.2 with
  | .ok (.jlist items) => (step.1, .ok (.jlist items))
  | .ok _ => (step.1 ++ [.warnUnexpectedBlocksType], .ok (.jlist []))
  | .error _ => (step.1 ++ [.errorPageBlocks name false], .ok (.jlist []))

/-! ## Heap model: aliasing and in-place mutation

The non-mutation guarantee of `PrivacyFilter.filter` is about Python
object identity, so here values are modelled with an explicit object
store: containers live in a `Heap` (address = list index, allocation
appends), and an `HVal` is a scalar or a reference.  `copy.deepcopy`
and the filter are re-traced on this store; the caller-visible guarantee
is then: the filter never changes the object stored at any pre-existing
address.  (Python `deepcopy` keeps a memo for shared/cyclic structure;
on tree-shaped JSON data — the only shape the claims quantify over —
that is equivalent to the per-reference copy below.) -/

inductive HVal where
  | hstr (s : String)
  | hint (n : Int)
  | hbool (b : Bool)
  | hnull
  | href (a : Nat)
deriving Repr, DecidableEq

inductive HObj where
  | hdict (kvs : List (String × HVal))
  | hlist (items : List HVal)
deriving Repr, DecidableEq

structure Heap where
  objs : List HObj
deriving Repr

def Heap.get (h : Heap) (a : Nat) : Option HObj := h.objs[a]?

def Heap.size (h : Heap) : Nat := h.objs.length

def Heap.alloc (h : Heap) (o : HObj) : Heap × Nat :=
  (⟨h.objs ++ [o]⟩, h.objs.length)

def Heap.put (h : Heap) (a : Nat) (o : HObj) : Heap := ⟨h.objs.set a o⟩

/-! Build a tree-shaped `JVal` in the heap (how a caller would have
constructed the nested dict/list arguments it attaches to a record). -/
mutual

def matVal (h : Heap) : JVal → Heap × HVal
  | .jstr s => (h, .hstr s)
  | .jint n => (h, .hint n)
  | .jbool b => (h, .hbool b)
  | .jnull => (h, .hnull)
  | .jlist items =>
    let p := matList h items
    let q := p.1.alloc (.hlist p.2)
    (q.1, .href q.2)
  | .jdict kvs =>
    let p := matEntries h kvs
    let q := p.1.alloc (.hdict p.2)
    (q.1, .href q.2)

def matList (h : Heap) : List JVal → Heap × List HVal
  | [] => (h, [])
  | v :: rest =>
    let p := matVal h v
    let q := matList p.1 rest
    (q.1, p.2 :: q.2)

def matEntries (h : Heap) : List (String × JVal) → Heap × List (String × HVal)
  | [] => (h, [])
  | (k, v) :: rest =>
    let p := matVal h v
    let q := matEntries p.1 rest
    (q.1, (k, p.2) :: q.2)

end

/-! Structural readback of a heap value as a `JVal` tree (the observation
a caller can make of the data it retains a reference to). -/
mutual

def readVal (h : Heap) : Nat → HVal → Option JVal
  | _, .hstr s => some (.jstr s)
  | _, .hint n => some (.jint n)
  | _, .hbool b => some (.jbool b)
  | _, .hnull => some .jnull
  | 0, .href _ => none
  | fuel + 1, .href a =>
    match h.get a with
    | some (.hlist items) => (readList h fuel items).map JVal.jlist
    | some (.hdict kvs) => (readEntries h fuel kvs).map JVal.jdict
    | none => none
termination_by fuel v => (fuel, sizeOf v)

def readList (h : Heap) (fuel : Nat) : List HVal → Option (List JVal)
  | [] => some []
  | v :: rest => do
    let x ← readVal h fuel v
    let xs ← readList h fuel rest
    pure (x :: xs)
termination_by l => (fuel, sizeOf l)

def readEntries (h : Heap) (fuel : Nat) :
    List (String × HVal) → Option (List (String × JVal))
  | [] => some []
  | (k, v) :: rest => do
    let x ← readVal h fuel v
    let xs ← readEntries h fuel rest
    pure ((k, x) :: xs)
termination_by l => (fuel, sizeOf l)

end

/-! `copy.deepcopy`: scalars are shared, containers are copied
recursively into fresh objects.  The error `"fuel"` marks exhaustion of
the recursion bound, never reached on data materialized from trees with
enough fuel. -/
mutual

def dcVal (h : Heap) : Nat → HVal → Heap × Except String HVal
  | _, .hstr s => (h, .ok (.hstr s))
  | _, .hint n => (h, .ok (.hint n))
  | _, .hbool b => (h, .ok (.hbool b))
  | _, .hnull => (h, .ok .hnull)
  | 0, .href _ => (h, .error "fuel")
  | fuel + 1, .href a =>
    match h.get a with
    | some (.hlist items) =>
      match dcList h fuel items with
      | (h1, .ok vs) =>
        let q := h1.alloc (.hlist vs)
        (q.1, .ok (.href q.2))
      | (h1, .error e) => (h1, .error e)
    | some (.hdict kvs) =>
      match dcEntries h fuel kvs with
      | (h1, .ok es) =>
        let q := h1.alloc (.hdict es)
        (q.1, .ok (.href q.2))
      | (h1, .error e) => (h1, .error e)
    | none => (h, .error "dangling reference")
termination_by fuel v => (fuel, sizeOf v)

def dcList (h : Heap) (fuel : Nat) : List HVal → Heap × Except String (List HVal)
  | [] => (h, .ok [])
  | v :: rest =>
    match dcVal h fuel v with
    | (h1, .ok v2) =>
      match dcList h1 fuel rest with
      | (h2, .ok vs) => (h2, .ok (v2 :: vs))
      | (h2, .error e) => (h2, .error e)
    | (h1, .error e) => (h1, .error e)
termination_by l => (fuel, sizeOf l)

def dcEntries (h : Heap) (fuel : Nat) :
    List (String × HVal) → Heap × Except String (List (String × HVal))
  | [] => (h, .ok [])
  | (k, v) :: rest =>
    match dcVal h fuel v with
    | (h1, .ok v2) =>
      match dcEntries h1 fuel rest with
      | (h2, .ok es) => (h2, .ok ((k, v2) :: es))
      | (h2, .error e) => (h2, .error e)
    | (h1, .error e) => (h1, .error e)
termination_by l => (fuel, sizeOf l)

end

/-- A heap scalar as a `JVal` (only applied where `value` is not a
container). -/
def hScalarJ : HVal → JVal
  | .hstr s => .jstr s
  | .hint n => .jint n
  | .hbool b => .jbool b
  | .hnull => .jnull
  | .href _ => .jnull

def isDictH (h : Heap) : HVal → Bool
  | .href a =>
    match h.get a with
    | some (.hdict _) => true
    | _ => false
  | _ => false

/-! `sanitize_dict` re-traced on the heap (sanitizer.py:254-279): reads
the input objects, allocates the new `sanitized` dict, never writes to
an existing address.  A rule method dispatched on a scalar returns a
scalar or (for `sanitize_properties` of a falsy value) a fresh empty
dict, re-materialized with `matVal`. -/
mutual

def sEntryValH (h : Heap) (fuel minMask : Nat) (rules : List (String × String))
    (k : String) (v : HVal) : Heap × Except String HVal :=
  match v with
  | .href a =>
    match fuel, h.get a with
    | _, none => (h, .error "dangling reference")
    | 0, some _ => (h, .error "fuel")
    | f + 1, some (.hdict kvs) =>
      match sEntriesH h f minMask rules kvs with
      | (h1, .ok es) =>
        let q := h1.alloc (.hdict es)
        (q.1, .ok (.href q.2))
      | (h1, .error e) => (h1, .error e)
    | _ + 1, some (.hlist []) => (h, .ok (.hstr "[list]"))
    | f + 1, some (.hlist (x :: xs)) =>
      if isDictH h x then
        match sItemsH h f minMask rules (x :: xs) with
        | (h1, .ok vs) =>
          let q := h1.alloc (.hlist vs)
          (q.1, .ok (.href q.2))
        | (h1, .error e) => (h1, .error e)
      else
        (h, .ok (.hstr ("[list_with_" ++ toString (x :: xs).length ++ "_items]")))
  | sc =>
    if (List.lookup k rules).isSome then
      match dispatchRule minMask ((List.lookup k rules).getD "") (hScalarJ sc) with
      | .error e => (h, .error e)
      | .ok j =>
        let q := matVal h j
        (q.1, .ok q.2)
    else (h, .ok sc)
termination_by (fuel, sizeOf v)

def sEntriesH (h : Heap) (fuel minMask : Nat) (rules : List (String × String)) :
    List (String × HVal) → Heap × Except String (List (String × HVal))
  | [] => (h, .ok [])
  | (k, v) :: rest =>
    match sEntryValH h fuel minMask rules k v with
    | (h1, .ok v2) =>
      match sEntriesH h1 fuel minMask rules rest with
      | (h2, .ok es) => (h2, .ok ((k, v2) :: es))
      | (h2, .error e) => (h2, .error e)
    | (h1, .error e) => (h1, .error e)
termination_by l => (fuel, sizeOf l)

def sItemH (h : Heap) (fuel minMask : Nat) (rules : List (String × String))
    (item : HVal) : Heap × Except String HVal :=
  match item with
  | .href a =>
    match fuel, h.get a with
    | _, none => (h, .error "dangling reference")
    | 0, some _ => (h, .error "fuel")
    | f + 1, some (.hdict kvs) =>
      match sEntriesH h f minMask rules kvs with
      | (h1, .ok es) =>
        let q := h1.alloc (.hdict es)
        (q.1, .ok (.href q.2))
      | (h1, .error e) => (h1, .error e)
    | _ + 1, some (.hlist _) =>
      (h, .error "AttributeError: object has no attribute items")
  | _ => (h, .error "AttributeError: object has no attribute items")
termination_by (fuel, sizeOf item)

def sItemsH (h : Heap) (fuel minMask : Nat) (rules : List (String × String)) :
    List HVal → Heap × Except String (List HVal)
  | [] => (h, .ok [])
  | item :: rest =>
    match sItemH h fuel minMask rules item with
    | (h1, .ok d) =>
      match sItemsH h1 fuel minMask rules rest with
      | (h2, .ok ds) => (h2, .ok (d :: ds))
      | (h2, .error e) => (h2, .error e)
    | (h1, .error e) => (h1, .error e)
termination_by l => (fuel, sizeOf l)

end

/-- `self.sanitizer.sanitize_dict(record.arguments)` on the heap: the
argument must be a dict object. -/
def sanitizeDictValH (h : Heap) (fuel : Nat) (v : HVal) :
    Heap × Except String HVal :=
  match v with
  | .href a =>
    match fuel, h.get a with
    | _, none => (h, .error "dangling reference")
    | 0, some _ => (h, .error "fuel")
    | f + 1, some (.hdict kvs) =>
      match sEntriesH h f defaultMinMask defaultRules kvs with
      | (h1, .ok es) =>
        let q := h1.alloc (.hdict es)
        (q.1, .ok (.href q.2))
      | (h1, .error e) => (h1, .error e)
    | _ + 1, some (.hlist _) =>
      (h, .error "AttributeError: object has no attribute items")
  | _ => (h, .error "AttributeError: object has no attribute items")

def pyTruthyH (h : Heap) : HVal → Bool
  | .hstr s => !s.isEmpty
  | .hint n => n != 0
  | .hbool b => b
  | .hnull => false
  | .href a =>
    match h.get a with
    | some (.hdict kvs) => !kvs.isEmpty
    | some (.hlist items) => !items.isEmpty
    | none => true

/-- Python dict slot assignment on heap dict entries. -/
def updateEntryH (kvs : List (String × HVal)) (key : String) (v : HVal) :
    List (String × HVal) :=
  kvs.map (fun kv => if kv.1 == key then (kv.1, v) else kv)

/-- `sanitize_page_name` on a heap value (the `originalName` slot can
hold any value; containers answer `len` and then fail the regex call). -/
def sanitize_page_name_hv (h : Heap) (v : HVal) : Except String HVal :=
  match v with
  | .hstr s => .ok (.hstr (sanitize_page_name_str defaultMinMask s))
  | .hint n =>
    if n = 0 then .ok (.hstr "[empty]") else .error "TypeError: object has no len"
  | .hbool b =>
    if b then .error "TypeError: object has no len" else .ok (.hstr "[empty]")
  | .hnull => .ok (.hstr "[empty]")
  | .href a =>
    match h.get a with
    | some (.hdict kvs) =>
      if kvs.isEmpty then .ok (.hstr "[empty]")
      else if kvs.length ≤ defaultMinMask then .ok v
      else .error "TypeError: expected string or bytes-like object"
    | some (.hlist items) =>
      if items.isEmpty then .ok (.hstr "[empty]")
      else if items.length ≤ defaultMinMask then .ok v
      else .error "TypeError: expected string or bytes-like object"
    | none => .error "dangling reference"

/-- Step 1 of the `result` branch of `PrivacyFilter.filter`
(logging_config.py:106-115) on the heap: rewrite
`result["page"]["originalName"]` in place on the deep copy. -/
def resStep1 (h : Heap) (ra : Nat) : Heap × Except String Unit :=
  match h.get ra with
  | some (.hdict kvs0) =>
    match List.lookup "page" kvs0 with
    | some (.href pa) =>
      match h.get pa with
      | some (.hdict pkvs) =>
        match List.lookup "originalName" pkvs with
        | some ov =>
          match sanitize_page_name_hv h ov with
          | .ok nv =>
            (h.put pa (.hdict (updateEntryH pkvs "originalName" nv)), .ok ())
          | .error e => (h, .error e)
        | none => (h, .ok ())
      | _ => (h, .ok ())
    | _ => (h, .ok ())
  | _ => (h, .ok ())

/-- Step 2 (logging_config.py:116-117): replace a list-valued
`result["pages"]` with a count marker, in place. -/
def resStep2 (h : Heap) (ra : Nat) : Heap :=
  match h.get ra with
  | some (.hdict kvs) =>
    match List.lookup "pages" kvs with
    | some (.href la) =>
      match h.get la with
      | some (.hlist items) =>
        h.put ra (.hdict (updateEntryH kvs "pages"
          (.hstr ("[list_with_" ++ toString items.length ++ "_pages]"))))
      | _ => h
    | _ => h
  | _ => h

/-- Step 3 (logging_config.py:118-119): replace a list-valued
`result["results"]` with a count marker, in place. -/
def resStep3 (h : Heap) (ra : Nat) : Heap :=
  match h.get ra with
  | some (.hdict kvs) =>
    match List.lookup "results" kvs with
    | some (.href la) =>
      match h.get la with
      | some (.hlist items) =>
        h.put ra (.hdict (updateEntryH kvs "results"
          (.hstr ("[list_with_" ++ toString items.length ++ "_results]"))))
      | _ => h
    | _ => h
  | _ => h

/-- The `result` branch of `PrivacyFilter.filter`
(logging_config.py:105-119) on the heap: `ra` is the address of the
deep-copied `result` dict.  An exception in step 1 propagates; steps 2
and 3 then act on the current heap. -/
def resultSanitizeH (h : Heap) (ra : Nat) : Heap × Except String Unit :=
  match h.get ra with
  | some (.hdict _) =>
    match resStep1 h ra with
    | (h1, .ok _) => (resStep3 (resStep2 h1 ra) ra, .ok ())
    | (h1, .error e) => (h1, .error e)
  | _ => (h, .ok ())

/-- The record fields consulted by the filter, heap-valued. -/
structure HRec where
  levelno : Nat
  msg : String
  arguments : Option HVal := none
  result : Option HVal := none
deriving Repr

/-- The `arguments` branch of `PrivacyFilter.filter`
(logging_config.py:87-95) on the heap: if the record carries a truthy
`arguments`, deep-copy it, then re-point the record at
`sanitize_dict` of the copy. -/
def filterArgsH (h : Heap) (fuel : Nat) (r : HRec) : Heap × Except String HRec :=
  match r.arguments with
  | some a =>
    if pyTruthyH h a then
      match dcVal h fuel a with
      | (h1, .ok aCopy) =>
        match sanitizeDictValH h1 fuel aCopy with
        | (h2, .ok a2) => (h2, .ok { r with arguments := some a2 })
        | (h2, .error e) => (h2, .error e)
      | (h1, .error e) => (h1, .error e)
    else (h, .ok r)
  | none => (h, .ok r)

/-- The `result` branch of `PrivacyFilter.filter`
(logging_config.py:97-119) on the heap: if the record carries a
dict-shaped `result`, deep-copy it and sanitize the copy in place. -/
def filterResultH (h : Heap) (fuel : Nat) (r : HRec) : Heap × Except String HRec :=
  match r.result with
  | some rv =>
    if isDictH h rv then
      match dcVal h fuel rv with
      | (h2, .ok (.href ra)) =>
        match resultSanitizeH h2 ra with
        | (h3, .ok _) => (h3, .ok { r with result := some (.href ra) })
        | (h3, .error e) => (h3, .error e)
      | (h2, .ok rc) => (h2, .ok { r with result := some rc })
      | (h2, .error e) => (h2, .error e)
    else (h, .ok r)
  | none => (h, .ok r)

/-- `PrivacyFilter.filter` on the heap (logging_config.py:40-121): the
deep copies and the subsequent sanitization/mutation act on the returned
heap; the caller-owned objects are the pre-existing addresses. -/
def filterH (h : Heap) (fuel : Nat) (mode : LoggingMode) (r : HRec) :
    Heap × Except String (Bool × HRec) :=
  if mode = .MINIMAL ∧ r.levelno < logWARNING then (h, .ok (false, r))
  else if mode = .PRIVACY then
    match filterArgsH h fuel { r with msg := sanitizeMessage r.msg } with
    | (h1, .ok r2) =>
      match filterResultH h1 fuel r2 with
      | (h3, .ok r3) => (h3, .ok (true, r3))
      | (h3, .error e) => (h3, .error e)
    | (h1, .error e) => (h1, .error e)
  else (h, .ok (true, r))

/-! ## Frame lemmas for the heap model

The non-mutation theorem is: running the filter never changes the object
stored at a pre-existing address, hence every readback a caller can make
of data it attached before the call is unchanged.  The proofs track
three invariants: `agreesBelow n` (the heaps agree on addresses `< n`),
`closedStrict` (each object only references strictly earlier addresses —
true of all heaps built by `matVal`), and, for `deepcopy`, freshness of
the copied region. -/

def valLT (n : Nat) : HVal → Prop
  | .href a => a < n
  | _ => True

def valGE (n : Nat) : HVal → Prop
  | .href a => n ≤ a
  | _ => True

def objLT (n : Nat) : HObj → Prop
  | .hdict kvs => ∀ kv ∈ kvs, valLT n kv.2
  | .hlist items => ∀ v ∈ items, valLT n v

def objGE (n : Nat) : HObj → Prop
  | .hdict kvs => ∀ kv ∈ kvs, valGE n kv.2
  | .hlist items => ∀ v ∈ items, valGE n v

/-- Heaps agree at every address below `n`. -/
def agreesBelow (n : Nat) (h h2 : Heap) : Prop :=
  ∀ a, a < n → h2.get a = h.get a

/-- Addresses below `n` only reference addresses below `n`. -/
def closedBelow (n : Nat) (h : Heap) : Prop :=
  ∀ a, a < n → ∀ o, h.get a = some o → objLT n o

/-- Every object references only strictly earlier addresses (heaps built
bottom-up by `matVal` have this shape). -/
def closedStrict (h : Heap) : Prop :=
  ∀ a o, h.get a = some o → objLT a o

/-- Every object at an address `≥ n` references only addresses `≥ n`. -/
def regionGE (n : Nat) (h : Heap) : Prop :=
  ∀ a, n ≤ a → ∀ o, h.get a = some o → objGE n o

theorem valLT_mono {m n : Nat} (hmn : m ≤ n) {v : HVal} (hv : valLT m v) :
    valLT n v := by
  cases v <;> simp [valLT] at hv ⊢ <;> omega

theorem valGE_anti {m n : Nat} (hmn : m ≤ n) {v : HVal} (hv : valGE n v) :
    valGE m v := by
  cases v <;> simp [valGE] at hv ⊢ <;> omega

theorem objLT_mono {m n : Nat} (hmn : m ≤ n) {o : HObj} (ho : objLT m o) :
    objLT n o := by
  cases o with
  | hdict kvs => exact fun kv hkv => valLT_mono hmn (ho kv hkv)
  | hlist items => exact fun v hv => valLT_mono hmn (ho v hv)

theorem objGE_anti {m n : Nat} (hmn : m ≤ n) {o : HObj} (ho : objGE n o) :
    objGE m o := by
  cases o with
  | hdict kvs => exact fun kv hkv => valGE_anti hmn (ho kv hkv)
  | hlist items => exact fun v hv => valGE_anti hmn (ho v hv)

theorem get_some_lt {h : Heap} {a : Nat} {o : HObj} (hg : h.get a = some o) :
    a < h.size := by
  by_contra hge
  rw [Heap.get, List.getElem?_eq_none (by simp [Heap.size] at hge ⊢; omega)] at hg
  exact Option.noConfusion hg

theorem alloc_size (h : Heap) (o : HObj) : (h.alloc o).1.size = h.size + 1 := by
  simp [Heap.alloc, Heap.size]

theorem alloc_get_lt {h : Heap} {a : Nat} (ha : a < h.size) (o : HObj) :
    (h.alloc o).1.get a = h.get a := by
  simp [Heap.alloc, Heap.get]
  exact List.getElem?_append_left ha

theorem alloc_get_new (h : Heap) (o : HObj) :
    (h.alloc o).1.get h.size = some o := by
  simp [Heap.alloc, Heap.get, Heap.size]

theorem put_size (h : Heap) (a : Nat) (o : HObj) :
    (h.put a o).size = h.size := by
  simp [Heap.put, Heap.size]

theorem put_get_ne {h : Heap} {a b : Nat} (hab : a ≠ b) (o : HObj) :
    (h.put a o).get b = h.get b := by
  simp [Heap.put, Heap.get]
  exact List.getElem?_set_ne hab

theorem agreesBelow_refl (n : Nat) (h : Heap) : agreesBelow n h h :=
  fun _ _ => rfl

theorem agreesBelow_trans {n m : Nat} {h h1 h2 : Heap} (hnm : n ≤ m)
    (h01 : agreesBelow n h h1) (h12 : agreesBelow m h1 h2) :
    agreesBelow n h h2 :=
  fun a ha => (h12 a (lt_of_lt_of_le ha hnm)).trans (h01 a ha)

theorem agreesBelow_mono {n m : Nat} {h h2 : Heap} (hmn : m ≤ n)
    (hag : agreesBelow n h h2) : agreesBelow m h h2 :=
  fun a ha => hag a (lt_of_lt_of_le ha hmn)

theorem agreesBelow_alloc (h : Heap) (o : HObj) :
    agreesBelow h.size h (h.alloc o).1 :=
  fun a ha => alloc_get_lt ha o

theorem agreesBelow_put {n a : Nat} (hna : n ≤ a) (h : Heap) (o : HObj) :
    agreesBelow n h (h.put a o) :=
  fun b hb => put_get_ne (by omega) o

/-- Readback only consults addresses reachable from its argument: two
heaps agreeing below `n` (with the old region closed below `n`) give the
same readback of any value referencing only addresses below `n`. -/
theorem readVal_agrees {n : Nat} {h h2 : Heap} (hcl : closedBelow n h)
    (hag : agreesBelow n h h2) :
    ∀ fuel v, valLT n v → readVal h2 fuel v = readVal h fuel v := by
  refine readVal.induct h
    (fun fuel v => valLT n v → readVal h2 fuel v = readVal h fuel v)
    (fun fuel es => (∀ kv ∈ es, valLT n kv.2) →
      readEntries h2 fuel es = readEntries h fuel es)
    (fun fuel l => (∀ v ∈ l, valLT n v) →
      readList h2 fuel l = readList h fuel l)
    ?_ ?_ ?_ ?_ ?_ ?_ ?_ ?_ ?_ ?_ ?_ ?_
  · intro x s _; simp [readVal]
  · intro x m _; simp [readVal]
  · intro x b _; simp [readVal]
  · intro x _; simp [readVal]
  · intro a _; simp [readVal]
  · intro fuel a items hget ih hv
    have hlt : a < n := by simpa [valLT] using hv
    have helems : ∀ v ∈ items, valLT n v := by
      have ho := hcl a hlt _ hget
      simpa [objLT] using ho
    have hg2 : h2.get a = h.get a := hag a hlt
    simp [readVal, hg2, hget, ih helems]
  · intro fuel a kvs hget ih hv
    have hlt : a < n := by simpa [valLT] using hv
    have helems : ∀ kv ∈ kvs, valLT n kv.2 := by
      have ho := hcl a hlt _ hget
      simpa [objLT] using ho
    have hg2 : h2.get a = h.get a := hag a hlt
    simp [readVal, hg2, hget, ih helems]
  · intro fuel a hget hv
    have hlt : a < n := by simpa [valLT] using hv
    have hg2 : h2.get a = h.get a := hag a hlt
    simp [readVal, hg2, hget]
  · intro fuel _; simp [readEntries]
  · intro fuel k v rest ih1 ih2 hv
    have h1 := ih1 (hv (k, v) (by simp))
    have h2r := ih2 (fun kv hkv => hv kv (by simp [hkv]))
    simp [readEntries, h1, h2r]
  · intro fuel _; simp [readList]
  · intro fuel v rest ih1 ih2 hv
    have h1 := ih1 (hv v (by simp))
    have h2r := ih2 (fun x hx => hv x (by simp [hx]))
    simp [readList, h1, h2r]

theorem readEntries_agrees {n : Nat} {h h2 : Heap} (hcl : closedBelow n h)
    (hag : agreesBelow n h h2) :
    ∀ fuel es, (∀ kv ∈ es, valLT n kv.2) →
      readEntries h2 fuel es = readEntries h fuel es := by
  intro fuel es hv
  induction es with
  | nil => simp [readEntries]
  | cons kv rest ih =>
    have h1 := readVal_agrees hcl hag fuel kv.2 (hv kv (by simp))
    have h2r := ih (fun x hx => hv x (by simp [hx]))
    cases kv with
    | mk k v => simp only [readEntries, h1, h2r]

theorem readList_agrees {n : Nat} {h h2 : Heap} (hcl : closedBelow n h)
    (hag : agreesBelow n h h2) :
    ∀ fuel l, (∀ v ∈ l, valLT n v) →
      readList h2 fuel l = readList h fuel l := by
  intro fuel l hv
  induction l with
  | nil => simp [readList]
  | cons v rest ih =>
    have h1 := readVal_agrees hcl hag fuel v (hv v (by simp))
    have h2r := ih (fun x hx => hv x (by simp [hx]))
    simp [readList, h1, h2r]

/-! ### `matVal` frame: materialization only appends. -/

abbrev MatP1 (h : Heap) (t : JVal) : Prop :=
  agreesBelow h.size h (matVal h t).1 ∧ h.size ≤ (matVal h t).1.size

abbrev MatP2 (h : Heap) (es : List (String × JVal)) : Prop :=
  agreesBelow h.size h (matEntries h es).1 ∧ h.size ≤ (matEntries h es).1.size

abbrev MatP3 (h : Heap) (l : List JVal) : Prop :=
  agreesBelow h.size h (matList h l).1 ∧ h.size ≤ (matList h l).1.size

theorem matF1 : ∀ (h : Heap) (s : String), MatP1 h (.jstr s) := by
  intro h s
  exact ⟨by simp [matVal]; exact agreesBelow_refl _ _, by simp [matVal]⟩

theorem matF2 : ∀ (h : Heap) (n : Int), MatP1 h (.jint n) := by
  intro h n
  exact ⟨by simp [matVal]; exact agreesBelow_refl _ _, by simp [matVal]⟩

theorem matF3 : ∀ (h : Heap) (b : Bool), MatP1 h (.jbool b) := by
  intro h b
  exact ⟨by simp [matVal]; exact agreesBelow_refl _ _, by simp [matVal]⟩

theorem matF4 : ∀ (h : Heap), MatP1 h .jnull := by
  intro h
  exact ⟨by simp [matVal]; exact agreesBelow_refl _ _, by simp [matVal]⟩

theorem matF5 : ∀ (h : Heap) (l : List JVal), MatP3 h l → MatP1 h (.jlist l) := by
  intro h l ⟨hag, hsz⟩
  constructor
  · show agreesBelow h.size h ((matList h l).1.alloc (.hlist (matList h l).2)).1
    exact agreesBelow_trans hsz hag (agreesBelow_alloc _ _)
  · show h.size ≤ ((matList h l).1.alloc (.hlist (matList h l).2)).1.size
    rw [alloc_size]
    omega

theorem matF6 : ∀ (h : Heap) (es : List (String × JVal)),
    MatP2 h es → MatP1 h (.jdict es) := by
  intro h es ⟨hag, hsz⟩
  constructor
  · show agreesBelow h.size h ((matEntries h es).1.alloc (.hdict (matEntries h es).2)).1
    exact agreesBelow_trans hsz hag (agreesBelow_alloc _ _)
  · show h.size ≤ ((matEntries h es).1.alloc (.hdict (matEntries h es).2)).1.size
    rw [alloc_size]
    omega

theorem matF7 : ∀ (h : Heap), MatP3 h [] := by
  intro h
  exact ⟨agreesBelow_refl _ _, le_refl _⟩

theorem matF8 : ∀ (h : Heap) (item : JVal) (rest : List JVal),
    MatP1 h item → MatP3 (matVal h item).1 rest → MatP3 h (item :: rest) := by
  intro h item rest ⟨hag1, hsz1⟩ ⟨hag2, hsz2⟩
  refine ⟨?_, ?_⟩
  · show agreesBelow h.size h (matList (matVal h item).1 rest).1
    exact agreesBelow_trans hsz1 hag1 hag2
  · show h.size ≤ (matList (matVal h item).1 rest).1.size
    omega

theorem matF9 : ∀ (h : Heap), MatP2 h [] := by
  intro h
  exact ⟨agreesBelow_refl _ _, le_refl _⟩

theorem matF10 : ∀ (h : Heap) (k : String) (v : JVal) (rest : List (String × JVal)),
    MatP1 h v → MatP2 (matVal h v).1 rest → MatP2 h ((k, v) :: rest) := by
  intro h k v rest ⟨hag1, hsz1⟩ ⟨hag2, hsz2⟩
  refine ⟨?_, ?_⟩
  · show agreesBelow h.size h (matEntries (matVal h v).1 rest).1
    exact agreesBelow_trans hsz1 hag1 hag2
  · show h.size ≤ (matEntries (matVal h v).1 rest).1.size
    omega

theorem matVal_frame : ∀ (h : Heap) (t : JVal), MatP1 h t :=
  matVal.induct MatP1 MatP2 MatP3 matF1 matF2 matF3 matF4 matF5 matF6 matF7
    matF8 matF9 matF10

theorem matList_frame : ∀ (h : Heap) (l : List JVal), MatP3 h l :=
  matList.induct MatP1 MatP2 MatP3 matF1 matF2 matF3 matF4 matF5 matF6 matF7
    matF8 matF9 matF10

theorem matEntries_frame : ∀ (h : Heap) (es : List (String × JVal)), MatP2 h es :=
  matEntries.induct MatP1 MatP2 MatP3 matF1 matF2 matF3 matF4 matF5 matF6 matF7
    matF8 matF9 matF10

theorem closedBelow_of_strict {h : Heap} (hst : closedStrict h) :
    closedBelow h.size h :=
  fun a ha o hg => objLT_mono (le_of_lt ha) (hst a o hg)

theorem closedStrict_alloc {h : Heap} {o : HObj} (hst : closedStrict h)
    (ho : objLT h.size o) : closedStrict (h.alloc o).1 := by
  intro a o' hg
  rcases lt_trichotomy a h.size with hlt | heq | hgt
  · rw [alloc_get_lt hlt] at hg
    exact hst a o' hg
  · subst heq
    rw [alloc_get_new] at hg
    cases hg
    exact ho
  · exfalso
    have hnone : (h.alloc o).1.get a = none := by
      simp [Heap.alloc, Heap.get]
      simp [Heap.size] at hgt
      omega
    rw [hnone] at hg
    exact Option.noConfusion hg

theorem closedStrict_empty : closedStrict ⟨[]⟩ := by
  intro a o hg
  simp [Heap.get] at hg

/-! ### `matVal` readback: a materialized tree reads back as itself. -/

abbrev MatR1 (h : Heap) (t : JVal) : Prop :=
  closedStrict h →
    closedStrict (matVal h t).1 ∧ valLT (matVal h t).1.size (matVal h t).2 ∧
    ∀ fuel, (matVal h t).1.size ≤ fuel →
      readVal (matVal h t).1 fuel (matVal h t).2 = some t

abbrev MatR2 (h : Heap) (es : List (String × JVal)) : Prop :=
  closedStrict h →
    closedStrict (matEntries h es).1 ∧
    (∀ kv ∈ (matEntries h es).2, valLT (matEntries h es).1.size kv.2) ∧
    ∀ fuel, (matEntries h es).1.size ≤ fuel →
      readEntries (matEntries h es).1 fuel (matEntries h es).2 = some es

abbrev MatR3 (h : Heap) (l : List JVal) : Prop :=
  closedStrict h →
    closedStrict (matList h l).1 ∧
    (∀ v ∈ (matList h l).2, valLT (matList h l).1.size v) ∧
    ∀ fuel, (matList h l).1.size ≤ fuel →
      readList (matList h l).1 fuel (matList h l).2 = some l

theorem matR1s : ∀ (h : Heap) (s : String), MatR1 h (.jstr s) := by
  intro h s hst
  exact ⟨by simpa [matVal] using hst, by simp [matVal, valLT],
    by intro fuel _; simp [matVal, readVal]⟩

theorem matR2i : ∀ (h : Heap) (n : Int), MatR1 h (.jint n) := by
  intro h n hst
  exact ⟨by simpa [matVal] using hst, by simp [matVal, valLT],
    by intro fuel _; simp [matVal, readVal]⟩

theorem matR3b : ∀ (h : Heap) (b : Bool), MatR1 h (.jbool b) := by
  intro h b hst
  exact ⟨by simpa [matVal] using hst, by simp [matVal, valLT],
    by intro fuel _; simp [matVal, readVal]⟩

theorem matR4n : ∀ (h : Heap), MatR1 h .jnull := by
  intro h hst
  exact ⟨by simpa [matVal] using hst, by simp [matVal, valLT],
    by intro fuel _; simp [matVal, readVal]⟩

theorem matR5l : ∀ (h : Heap) (l : List JVal), MatR3 h l → MatR1 h (.jlist l) := by
  intro h l ih hst
  obtain ⟨hc1, hvals, hread⟩ := ih hst
  have hmv : matVal h (.jlist l) =
      (((matList h l).1.alloc (.hlist (matList h l).2)).1,
       .href (matList h l).1.size) := by
    simp [matVal, Heap.alloc, Heap.size]
  rw [hmv]
  refine ⟨closedStrict_alloc hc1 (by simpa [objLT] using hvals), ?_, ?_⟩
  · simp [valLT, alloc_size]
  · intro fuel hf
    rw [alloc_size] at hf
    cases fuel with
    | zero => omega
    | succ f =>
      have hgetn := alloc_get_new (matList h l).1 (HObj.hlist (matList h l).2)
      have hagrees := readList_agrees (closedBelow_of_strict hc1)
        (agreesBelow_alloc (matList h l).1 (HObj.hlist (matList h l).2)) f
        (matList h l).2 hvals
      simp [readVal, hgetn, hagrees, hread f (by omega)]

theorem matR6d : ∀ (h : Heap) (es : List (String × JVal)),
    MatR2 h es → MatR1 h (.jdict es) := by
  intro h es ih hst
  obtain ⟨hc1, hvals, hread⟩ := ih hst
  have hmv : matVal h (.jdict es) =
      (((matEntries h es).1.alloc (.hdict (matEntries h es).2)).1,
       .href (matEntries h es).1.size) := by
    simp [matVal, Heap.alloc, Heap.size]
  rw [hmv]
  refine ⟨closedStrict_alloc hc1 (by simpa [objLT] using hvals), ?_, ?_⟩
  · simp [valLT, alloc_size]
  · intro fuel hf
    rw [alloc_size] at hf
    cases fuel with
    | zero => omega
    | succ f =>
      have hgetn := alloc_get_new (matEntries h es).1 (HObj.hdict (matEntries h es).2)
      have hagrees := readEntries_agrees (closedBelow_of_strict hc1)
        (agreesBelow_alloc (matEntries h es).1 (HObj.hdict (matEntries h es).2)) f
        (matEntries h es).2 hvals
      simp [readVal, hgetn, hagrees, hread f (by omega)]

theorem matR7 : ∀ (h : Heap), MatR3 h [] := by
  intro h hst
  exact ⟨by simpa [matList] using hst, by simp [matList],
    by intro fuel _; simp [matList, readList]⟩

theorem matR8 : ∀ (h : Heap) (item : JVal) (rest : List JVal),
    MatR1 h item → MatR3 (matVal h item).1 rest → MatR3 h (item :: rest) := by
  intro h item rest ih1 ih2 hst
  obtain ⟨hc1, hv1, hr1⟩ := ih1 hst
  obtain ⟨hc2, hv2, hr2⟩ := ih2 hc1
  obtain ⟨hagq, hszq⟩ := matList_frame (matVal h item).1 rest
  have hml : matList h (item :: rest) =
      ((matList (matVal h item).1 rest).1,
       (matVal h item).2 :: (matList (matVal h item).1 rest).2) := by
    simp [matList]
  rw [hml]
  refine ⟨hc2, ?_, ?_⟩
  · intro v hv
    rcases List.mem_cons.mp hv with hv | hv
    · subst hv
      exact valLT_mono hszq hv1
    · exact hv2 v hv
  · intro fuel hf
    replace hf : (matList (matVal h item).1 rest).1.size ≤ fuel := hf
    have hread1 : readVal (matList (matVal h item).1 rest).1 fuel (matVal h item).2 =
        some item := by
      rw [readVal_agrees (closedBelow_of_strict hc1) hagq fuel (matVal h item).2 hv1]
      exact hr1 fuel (by omega)
    simp [readList, hread1, hr2 fuel hf]

theorem matR9 : ∀ (h : Heap), MatR2 h [] := by
  intro h hst
  exact ⟨by simpa [matEntries] using hst, by simp [matEntries],
    by intro fuel _; simp [matEntries, readEntries]⟩

theorem matR10 : ∀ (h : Heap) (k : String) (v : JVal) (rest : List (String × JVal)),
    MatR1 h v → MatR2 (matVal h v).1 rest → MatR2 h ((k, v) :: rest) := by
  intro h k v rest ih1 ih2 hst
  obtain ⟨hc1, hv1, hr1⟩ := ih1 hst
  obtain ⟨hc2, hv2, hr2⟩ := ih2 hc1
  obtain ⟨hagq, hszq⟩ := matEntries_frame (matVal h v).1 rest
  have hml : matEntries h ((k, v) :: rest) =
      ((matEntries (matVal h v).1 rest).1,
       (k, (matVal h v).2) :: (matEntries (matVal h v).1 rest).2) := by
    simp [matEntries]
  rw [hml]
  refine ⟨hc2, ?_, ?_⟩
  · intro kv hkv
    rcases List.mem_cons.mp hkv with hkv | hkv
    · subst hkv
      exact valLT_mono hszq hv1
    · exact hv2 kv hkv
  · intro fuel hf
    replace hf : (matEntries (matVal h v).1 rest).1.size ≤ fuel := hf
    have hread1 : readVal (matEntries (matVal h v).1 rest).1 fuel (matVal h v).2 =
        some v := by
      rw [readVal_agrees (closedBelow_of_strict hc1) hagq fuel (matVal h v).2 hv1]
      exact hr1 fuel (by omega)
    simp [readEntries, hread1, hr2 fuel hf]

theorem matVal_read : ∀ (h : Heap) (t : JVal), MatR1 h t :=
  matVal.induct MatR1 MatR2 MatR3 matR1s matR2i matR3b matR4n matR5l matR6d
    matR7 matR8 matR9 matR10

/-! ### `deepcopy` frame and freshness: the copy only appends, and the
copied region references only fresh addresses. -/

theorem regionGE_self (h : Heap) : regionGE h.size h := by
  intro a ha o hg
  have := get_some_lt hg
  omega

theorem regionGE_alloc {n : Nat} {h : Heap} {o : HObj} (hr : regionGE n h)
    (ho : objGE n o) (hn : n ≤ h.size) : regionGE n (h.alloc o).1 := by
  intro b hb o' hg
  rcases lt_trichotomy b h.size with hlt | heq | hgt
  · rw [alloc_get_lt hlt] at hg
    exact hr b hb o' hg
  · subst heq
    rw [alloc_get_new] at hg
    cases hg
    exact ho
  · exfalso
    have hnone : (h.alloc o).1.get b = none := by
      simp [Heap.alloc, Heap.get]
      simp [Heap.size] at hgt
      omega
    rw [hnone] at hg
    exact Option.noConfusion hg

theorem regionGE_step {n m : Nat} {h1 h2 : Heap} (hnm : n ≤ m)
    (r1 : regionGE n h1) (r2 : regionGE m h2) (ag : agreesBelow m h1 h2) :
    regionGE n h2 := by
  intro b hb o hg
  by_cases hbm : b < m
  · rw [ag b hbm] at hg
    exact r1 b hb o hg
  · exact objGE_anti hnm (r2 b (by omega) o hg)

abbrev DcP1 (h : Heap) (fuel : Nat) (v : HVal) : Prop :=
  ∀ h2 res, dcVal h fuel v = (h2, res) →
    agreesBelow h.size h h2 ∧ h.size ≤ h2.size ∧ regionGE h.size h2 ∧
    ∀ v2, res = Except.ok v2 → valGE h.size v2

abbrev DcP2 (h : Heap) (fuel : Nat) (kvs : List (String × HVal)) : Prop :=
  ∀ h2 res, dcEntries h fuel kvs = (h2, res) →
    agreesBelow h.size h h2 ∧ h.size ≤ h2.size ∧ regionGE h.size h2 ∧
    ∀ es, res = Except.ok es → ∀ kv ∈ es, valGE h.size kv.2

abbrev DcP3 (h : Heap) (fuel : Nat) (l : List HVal) : Prop :=
  ∀ h2 res, dcList h fuel l = (h2, res) →
    agreesBelow h.size h h2 ∧ h.size ≤ h2.size ∧ regionGE h.size h2 ∧
    ∀ vs, res = Except.ok vs → ∀ v ∈ vs, valGE h.size v

theorem dcC1 : ∀ (h : Heap) (x : Nat) (s : String), DcP1 h x (.hstr s) := by
  intro h x s h2 res heq
  simp [dcVal] at heq
  obtain ⟨he1, he2⟩ := heq
  subst he1
  refine ⟨agreesBelow_refl _ _, le_refl _, regionGE_self _, ?_⟩
  intro v2 hv2
  rw [← he2] at hv2
  cases hv2
  trivial

theorem dcC2 : ∀ (h : Heap) (x : Nat) (n : Int), DcP1 h x (.hint n) := by
  intro h x n h2 res heq
  simp [dcVal] at heq
  obtain ⟨he1, he2⟩ := heq
  subst he1
  refine ⟨agreesBelow_refl _ _, le_refl _, regionGE_self _, ?_⟩
  intro v2 hv2
  rw [← he2] at hv2
  cases hv2
  trivial

theorem dcC3 : ∀ (h : Heap) (x : Nat) (b : Bool), DcP1 h x (.hbool b) := by
  intro h x b h2 res heq
  simp [dcVal] at heq
  obtain ⟨he1, he2⟩ := heq
  subst he1
  refine ⟨agreesBelow_refl _ _, le_refl _, regionGE_self _, ?_⟩
  intro v2 hv2
  rw [← he2] at hv2
  cases hv2
  trivial

theorem dcC4 : ∀ (h : Heap) (x : Nat), DcP1 h x .hnull := by
  intro h x h2 res heq
  simp [dcVal] at heq
  obtain ⟨he1, he2⟩ := heq
  subst he1
  refine ⟨agreesBelow_refl _ _, le_refl _, regionGE_self _, ?_⟩
  intro v2 hv2
  rw [← he2] at hv2
  cases hv2
  trivial

theorem dcC5 : ∀ (h : Heap) (a : Nat), DcP1 h 0 (.href a) := by
  intro h a h2 res heq
  simp [dcVal] at heq
  obtain ⟨he1, he2⟩ := heq
  subst he1
  refine ⟨agreesBelow_refl _ _, le_refl _, regionGE_self _, ?_⟩
  intro v2 hv2
  rw [← he2] at hv2
  exact Except.noConfusion hv2

theorem dcC6 : ∀ (h : Heap) (fuel a : Nat) (items : List HVal),
    h.get a = some (.hlist items) →
    ∀ (h1 : Heap) (vs : List HVal), dcList h fuel items = (h1, .ok vs) →
    DcP3 h fuel items → DcP1 h fuel.succ (.href a) := by
  intro h fuel a items hget h1 vs hdc ih h2 res heq
  simp [dcVal, hget, hdc] at heq
  obtain ⟨hh2, hres⟩ := heq
  obtain ⟨ag1, sz1, rg1, vals1⟩ := ih h1 (.ok vs) hdc
  have hvals := vals1 vs rfl
  subst hh2
  refine ⟨agreesBelow_trans sz1 ag1 (agreesBelow_alloc _ _), ?_, ?_, ?_⟩
  · rw [alloc_size]
    omega
  · exact regionGE_alloc rg1 (by simpa [objGE] using hvals) sz1
  · intro v2 hv2
    rw [← hres] at hv2
    injection hv2 with hv3
    subst hv3
    simp only [valGE]
    have hsz : h.size ≤ h1.size := sz1
    simpa [Heap.size] using hsz

theorem dcC7 : ∀ (h : Heap) (fuel a : Nat) (items : List HVal),
    h.get a = some (.hlist items) →
    ∀ (h1 : Heap) (e : String), dcList h fuel items = (h1, .error e) →
    DcP3 h fuel items → DcP1 h fuel.succ (.href a) := by
  intro h fuel a items hget h1 e hdc ih h2 res heq
  simp [dcVal, hget, hdc] at heq
  obtain ⟨hh2, hres⟩ := heq
  obtain ⟨ag1, sz1, rg1, _⟩ := ih h1 (.error e) hdc
  subst hh2
  refine ⟨ag1, sz1, rg1, ?_⟩
  intro v2 hv2
  rw [← hres] at hv2
  exact Except.noConfusion hv2

theorem dcC8 : ∀ (h : Heap) (fuel a : Nat) (kvs : List (String × HVal)),
    h.get a = some (.hdict kvs) →
    ∀ (h1 : Heap) (es : List (String × HVal)), dcEntries h fuel kvs = (h1, .ok es) →
    DcP2 h fuel kvs → DcP1 h fuel.succ (.href a) := by
  intro h fuel a kvs hget h1 es hdc ih h2 res heq
  simp [dcVal, hget, hdc] at heq
  obtain ⟨hh2, hres⟩ := heq
  obtain ⟨ag1, sz1, rg1, vals1⟩ := ih h1 (.ok es) hdc
  have hvals := vals1 es rfl
  subst hh2
  refine ⟨agreesBelow_trans sz1 ag1 (agreesBelow_alloc _ _), ?_, ?_, ?_⟩
  · rw [alloc_size]
    omega
  · exact regionGE_alloc rg1 (by simpa [objGE] using hvals) sz1
  · intro v2 hv2
    rw [← hres] at hv2
    injection hv2 with hv3
    subst hv3
    simp only [valGE]
    have hsz : h.size ≤ h1.size := sz1
    simpa [Heap.size] using hsz

theorem dcC9 : ∀ (h : Heap) (fuel a : Nat) (kvs : List (String × HVal)),
    h.get a = some (.hdict kvs) →
    ∀ (h1 : Heap) (e : String), dcEntries h fuel kvs = (h1, .error e) →
    DcP2 h fuel kvs → DcP1 h fuel.succ (.href a) := by
  intro h fuel a kvs hget h1 e hdc ih h2 res heq
  simp [dcVal, hget, hdc] at heq
  obtain ⟨hh2, hres⟩ := heq
  obtain ⟨ag1, sz1, rg1, _⟩ := ih h1 (.error e) hdc
  subst hh2
  refine ⟨ag1, sz1, rg1, ?_⟩
  intro v2 hv2
  rw [← hres] at hv2
  exact Except.noConfusion hv2

theorem dcC10 : ∀ (h : Heap) (fuel a : Nat), h.get a = none →
    DcP1 h fuel.succ (.href a) := by
  intro h fuel a hget h2 res heq
  simp [dcVal, hget] at heq
  obtain ⟨he1, he2⟩ := heq
  subst he1
  refine ⟨agreesBelow_refl _ _, le_refl _, regionGE_self _, ?_⟩
  intro v2 hv2
  rw [← he2] at hv2
  exact Except.noConfusion hv2

theorem dcC11 : ∀ (h : Heap) (fuel : Nat), DcP2 h fuel [] := by
  intro h fuel h2 res heq
  simp [dcEntries] at heq
  obtain ⟨he1, he2⟩ := heq
  subst he1
  refine ⟨agreesBelow_refl _ _, le_refl _, regionGE_self _, ?_⟩
  intro es hes
  rw [← he2] at hes
  cases hes
  simp

theorem dcC12 : ∀ (h : Heap) (fuel : Nat) (k : String) (v : HVal)
    (rest : List (String × HVal)) (h1 : Heap) (v2 : HVal),
    dcVal h fuel v = (h1, .ok v2) →
    ∀ (h12 : Heap) (es : List (String × HVal)),
    dcEntries h1 fuel rest = (h12, .ok es) →
    DcP1 h fuel v → DcP2 h1 fuel rest → DcP2 h fuel ((k, v) :: rest) := by
  intro h fuel k v rest h1 v2 hv h12 es he ih1 ih2 hh2 res heq
  simp [dcEntries, hv, he] at heq
  obtain ⟨hheq, hres⟩ := heq
  obtain ⟨ag1, sz1, rg1, val1⟩ := ih1 h1 (.ok v2) hv
  obtain ⟨ag2, sz2, rg2, val2⟩ := ih2 h12 (.ok es) he
  subst hheq
  refine ⟨agreesBelow_trans sz1 ag1 ag2, by omega, regionGE_step sz1 rg1 rg2 ag2, ?_⟩
  intro es2 hes2
  rw [← hres] at hes2
  injection hes2 with hes3
  subst hes3
  intro kv hkv
  rcases List.mem_cons.mp hkv with hkv | hkv
  · subst hkv
    exact val1 v2 rfl
  · exact valGE_anti sz1 (val2 es rfl kv hkv)

theorem dcC13 : ∀ (h : Heap) (fuel : Nat) (k : String) (v : HVal)
    (rest : List (String × HVal)) (h1 : Heap) (v2 : HVal),
    dcVal h fuel v = (h1, .ok v2) →
    ∀ (h12 : Heap) (e : String),
    dcEntries h1 fuel rest = (h12, .error e) →
    DcP1 h fuel v → DcP2 h1 fuel rest → DcP2 h fuel ((k, v) :: rest) := by
  intro h fuel k v rest h1 v2 hv h12 e he ih1 ih2 hh2 res heq
  simp [dcEntries, hv, he] at heq
  obtain ⟨hheq, hres⟩ := heq
  obtain ⟨ag1, sz1, rg1, _⟩ := ih1 h1 (.ok v2) hv
  obtain ⟨ag2, sz2, rg2, _⟩ := ih2 h12 (.error e) he
  subst hheq
  refine ⟨agreesBelow_trans sz1 ag1 ag2, by omega, regionGE_step sz1 rg1 rg2 ag2, ?_⟩
  intro es2 hes2
  rw [← hres] at hes2
  exact Except.noConfusion hes2

theorem dcC14 : ∀ (h : Heap) (fuel : Nat) (k : String) (v : HVal)
    (rest : List (String × HVal)) (h1 : Heap) (e : String),
    dcVal h fuel v = (h1, .error e) →
    DcP1 h fuel v → DcP2 h fuel ((k, v) :: rest) := by
  intro h fuel k v rest h1 e hv ih1 hh2 res heq
  simp [dcEntries, hv] at heq
  obtain ⟨hheq, hres⟩ := heq
  obtain ⟨ag1, sz1, rg1, _⟩ := ih1 h1 (.error e) hv
  subst hheq
  refine ⟨ag1, sz1, rg1, ?_⟩
  intro es2 hes2
  rw [← hres] at hes2
  exact Except.noConfusion hes2

theorem dcC15 : ∀ (h : Heap) (fuel : Nat), DcP3 h fuel [] := by
  intro h fuel h2 res heq
  simp [dcList] at heq
  obtain ⟨he1, he2⟩ := heq
  subst he1
  refine ⟨agreesBelow_refl _ _, le_refl _, regionGE_self _, ?_⟩
  intro vs hvs
  rw [← he2] at hvs
  cases hvs
  simp

theorem dcC16 : ∀ (h : Heap) (fuel : Nat) (v : HVal) (rest : List HVal)
    (h1 : Heap) (v2 : HVal),
    dcVal h fuel v = (h1, .ok v2) →
    ∀ (h12 : Heap) (vs : List HVal),
    dcList h1 fuel rest = (h12, .ok vs) →
    DcP1 h fuel v → DcP3 h1 fuel rest → DcP3 h fuel (v :: rest) := by
  intro h fuel v rest h1 v2 hv h12 vs he ih1 ih2 hh2 res heq
  simp [dcList, hv, he] at heq
  obtain ⟨hheq, hres⟩ := heq
  obtain ⟨ag1, sz1, rg1, val1⟩ := ih1 h1 (.ok v2) hv
  obtain ⟨ag2, sz2, rg2, val2⟩ := ih2 h12 (.ok vs) he
  subst hheq
  refine ⟨agreesBelow_trans sz1 ag1 ag2, by omega, regionGE_step sz1 rg1 rg2 ag2, ?_⟩
  intro vs2 hvs2
  rw [← hres] at hvs2
  injection hvs2 with hvs3
  subst hvs3
  intro x hx
  rcases List.mem_cons.mp hx with hx | hx
  · rw [hx]
    exact val1 v2 rfl
  · exact valGE_anti sz1 (val2 vs rfl x hx)

theorem dcC17 : ∀ (h : Heap) (fuel : Nat) (v : HVal) (rest : List HVal)
    (h1 : Heap) (v2 : HVal),
    dcVal h fuel v = (h1, .ok v2) →
    ∀ (h12 : Heap) (e : String),
    dcList h1 fuel rest = (h12, .error e) →
    DcP1 h fuel v → DcP3 h1 fuel rest → DcP3 h fuel (v :: rest) := by
  intro h fuel v rest h1 v2 hv h12 e he ih1 ih2 hh2 res heq
  simp [dcList, hv, he] at heq
  obtain ⟨hheq, hres⟩ := heq
  obtain ⟨ag1, sz1, rg1, _⟩ := ih1 h1 (.ok v2) hv
  obtain ⟨ag2, sz2, rg2, _⟩ := ih2 h12 (.error e) he
  subst hheq
  refine ⟨agreesBelow_trans sz1 ag1 ag2, by omega, regionGE_step sz1 rg1 rg2 ag2, ?_⟩
  intro vs2 hvs2
  rw [← hres] at hvs2
  exact Except.noConfusion hvs2

theorem dcC18 : ∀ (h : Heap) (fuel : Nat) (v : HVal) (rest : List HVal)
    (h1 : Heap) (e : String),
    dcVal h fuel v = (h1, .error e) →
    DcP1 h fuel v → DcP3 h fuel (v :: rest) := by
  intro h fuel v rest h1 e hv ih1 hh2 res heq
  simp [dcList, hv] at heq
  obtain ⟨hheq, hres⟩ := heq
  obtain ⟨ag1, sz1, rg1, _⟩ := ih1 h1 (.error e) hv
  subst hheq
  refine ⟨ag1, sz1, rg1, ?_⟩
  intro vs2 hvs2
  rw [← hres] at hvs2
  exact Except.noConfusion hvs2

theorem dcVal_spec : ∀ (h : Heap) (fuel : Nat) (v : HVal), DcP1 h fuel v :=
  dcVal.induct DcP1 DcP2 DcP3 dcC1 dcC2 dcC3 dcC4 dcC5 dcC6 dcC7 dcC8 dcC9
    dcC10 dcC11 dcC12 dcC13 dcC14 dcC15 dcC16 dcC17 dcC18

/-! ### Heap `sanitize_dict` frame: it reads and allocates, never
writes to an existing address. -/

/-- Heap evolution that leaves every pre-existing address intact. -/
def FrameOK (h h2 : Heap) : Prop :=
  agreesBelow h.size h h2 ∧ h.size ≤ h2.size

theorem FrameOK_refl (h : Heap) : FrameOK h h :=
  ⟨agreesBelow_refl _ _, le_refl _⟩

theorem FrameOK_trans {h h1 h2 : Heap} (f1 : FrameOK h h1) (f2 : FrameOK h1 h2) :
    FrameOK h h2 :=
  ⟨agreesBelow_trans f1.2 f1.1 f2.1, le_trans f1.2 f2.2⟩

theorem FrameOK_alloc (h : Heap) (o : HObj) : FrameOK h (h.alloc o).1 :=
  ⟨agreesBelow_alloc _ _, by rw [alloc_size]; omega⟩

theorem matVal_frameOK (h : Heap) (t : JVal) : FrameOK h (matVal h t).1 :=
  matVal_frame h t

/-- The heap-level sanitizer functions only extend the heap. -/
theorem sanitizeH_frame : ∀ fuel : Nat,
    (∀ (mm : Nat) (rr : List (String × String)) (k : String) (v : HVal)
        (h h2 : Heap) (res : Except String HVal),
      sEntryValH h fuel mm rr k v = (h2, res) → FrameOK h h2) ∧
    (∀ (mm : Nat) (rr : List (String × String)) (v : HVal)
        (h h2 : Heap) (res : Except String HVal),
      sItemH h fuel mm rr v = (h2, res) → FrameOK h h2) ∧
    (∀ (mm : Nat) (rr : List (String × String)) (l : List (String × HVal))
        (h h2 : Heap) (res : Except String (List (String × HVal))),
      sEntriesH h fuel mm rr l = (h2, res) → FrameOK h h2) ∧
    (∀ (mm : Nat) (rr : List (String × String)) (l : List HVal)
        (h h2 : Heap) (res : Except String (List HVal)),
      sItemsH h fuel mm rr l = (h2, res) → FrameOK h h2) := by
  intro fuel
  induction fuel using Nat.strong_induction_on with
  | _ fuel ih =>
    have hEV : ∀ (mm : Nat) (rr : List (String × String)) (k : String) (v : HVal)
        (h h2 : Heap) (res : Except String HVal),
        sEntryValH h fuel mm rr k v = (h2, res) → FrameOK h h2 := by
      intro mm rr k v h h2 res heq
      match v with
      | .hstr s | .hint n | .hbool b | .hnull =>
        simp only [sEntryValH] at heq
        split at heq
        · split at heq
          · simp only [Prod.mk.injEq] at heq
            obtain ⟨he1, _⟩ := heq
            rw [← he1]
            exact FrameOK_refl h
          · simp only [Prod.mk.injEq] at heq
            obtain ⟨he1, _⟩ := heq
            rw [← he1]
            exact matVal_frameOK h _
        · simp only [Prod.mk.injEq] at heq
          obtain ⟨he1, _⟩ := heq
          rw [← he1]
          exact FrameOK_refl h
      | .href a =>
        match fuel, hget : h.get a with
        | _, none =>
          simp [sEntryValH, hget] at heq
          obtain ⟨he1, _⟩ := heq
          rw [← he1]
          exact FrameOK_refl h
        | 0, some o =>
          simp [sEntryValH, hget] at heq
          obtain ⟨he1, _⟩ := heq
          rw [← he1]
          exact FrameOK_refl h
        | f + 1, some (.hdict kvs) =>
          simp [sEntryValH, hget] at heq
          rcases hse : sEntriesH h f mm rr kvs with ⟨h1, res1⟩
          have hf1 := ((ih f (by omega)).2.2.1) mm rr kvs h h1 res1 hse
          rw [hse] at heq
          cases res1 with
          | ok es =>
            simp at heq
            obtain ⟨he1, _⟩ := heq
            rw [← he1]
            exact FrameOK_trans hf1 (FrameOK_alloc h1 _)
          | error e =>
            simp at heq
            obtain ⟨he1, _⟩ := heq
            rw [← he1]
            exact hf1
        | f + 1, some (.hlist []) =>
          simp [sEntryValH, hget] at heq
          obtain ⟨he1, _⟩ := heq
          rw [← he1]
          exact FrameOK_refl h
        | f + 1, some (.hlist (x :: xs)) =>
          by_cases hxd : isDictH h x = true
          · rw [sEntryValH.eq_def] at heq
            simp only [hget] at heq
            rw [if_pos hxd] at heq
            rcases hsi : sItemsH h f mm rr (x :: xs) with ⟨h1, res1⟩
            have hf1 := ((ih f (by omega)).2.2.2) mm rr (x :: xs) h h1 res1 hsi
            rw [hsi] at heq
            cases res1 with
            | ok vs =>
              simp at heq
              obtain ⟨he1, _⟩ := heq
              rw [← he1]
              exact FrameOK_trans hf1 (FrameOK_alloc h1 _)
            | error e =>
              simp at heq
              obtain ⟨he1, _⟩ := heq
              rw [← he1]
              exact hf1
          · rw [sEntryValH.eq_def] at heq
            simp only [hget] at heq
            rw [if_neg hxd] at heq
            simp only [Prod.mk.injEq] at heq
            obtain ⟨he1, _⟩ := heq
            rw [← he1]
            exact FrameOK_refl h
    have hIt : ∀ (mm : Nat) (rr : List (String × String)) (v : HVal)
        (h h2 : Heap) (res : Except String HVal),
        sItemH h fuel mm rr v = (h2, res) → FrameOK h h2 := by
      intro mm rr v h h2 res heq
      match v with
      | .hstr s | .hint n | .hbool b | .hnull =>
        simp [sItemH] at heq
        obtain ⟨he1, _⟩ := heq
        rw [← he1]
        exact FrameOK_refl h
      | .href a =>
        match fuel, hget : h.get a with
        | _, none =>
          simp [sItemH, hget] at heq
          obtain ⟨he1, _⟩ := heq
          rw [← he1]
          exact FrameOK_refl h
        | 0, some o =>
          simp [sItemH, hget] at heq
          obtain ⟨he1, _⟩ := heq
          rw [← he1]
          exact FrameOK_refl h
        | f + 1, some (.hdict kvs) =>
          simp [sItemH, hget] at heq
          rcases hse : sEntriesH h f mm rr kvs with ⟨h1, res1⟩
          have hf1 := ((ih f (by omega)).2.2.1) mm rr kvs h h1 res1 hse
          rw [hse] at heq
          cases res1 with
          | ok es =>
            simp at heq
            obtain ⟨he1, _⟩ := heq
            rw [← he1]
            exact FrameOK_trans hf1 (FrameOK_alloc h1 _)
          | error e =>
            simp at heq
            obtain ⟨he1, _⟩ := heq
            rw [← he1]
            exact hf1
        | f + 1, some (.hlist items) =>
          simp [sItemH, hget] at heq
          obtain ⟨he1, _⟩ := heq
          rw [← he1]
          exact FrameOK_refl h
    have hEnts : ∀ (mm : Nat) (rr : List (String × String))
        (l : List (String × HVal)) (h h2 : Heap)
        (res : Except String (List (String × HVal))),
        sEntriesH h fuel mm rr l = (h2, res) → FrameOK h h2 := by
      intro mm rr l
      induction l with
      | nil =>
        intro h h2 res heq
        simp [sEntriesH] at heq
        obtain ⟨he1, _⟩ := heq
        rw [← he1]
        exact FrameOK_refl h
      | cons kv rest ihl =>
        intro h h2 res heq
        rcases kv with ⟨k, v⟩
        simp only [sEntriesH] at heq
        rcases hev : sEntryValH h fuel mm rr k v with ⟨h1, res1⟩
        have hf1 := hEV mm rr k v h h1 res1 hev
        rw [hev] at heq
        cases res1 with
        | ok v2 =>
          simp at heq
          rcases hrest : sEntriesH h1 fuel mm rr rest with ⟨hr2, res2⟩
          have hf2 := ihl h1 hr2 res2 hrest
          rw [hrest] at heq
          cases res2 with
          | ok es =>
            simp at heq
            obtain ⟨he1, _⟩ := heq
            rw [← he1]
            exact FrameOK_trans hf1 hf2
          | error e =>
            simp at heq
            obtain ⟨he1, _⟩ := heq
            rw [← he1]
            exact FrameOK_trans hf1 hf2
        | error e =>
          simp at heq
          obtain ⟨he1, _⟩ := heq
          rw [← he1]
          exact hf1
    have hItems : ∀ (mm : Nat) (rr : List (String × String)) (l : List HVal)
        (h h2 : Heap) (res : Except String (List HVal)),
        sItemsH h fuel mm rr l = (h2, res) → FrameOK h h2 := by
      intro mm rr l
      induction l with
      | nil =>
        intro h h2 res heq
        simp [sItemsH] at heq
        obtain ⟨he1, _⟩ := heq
        rw [← he1]
        exact FrameOK_refl h
      | cons item rest ihl =>
        intro h h2 res heq
        simp only [sItemsH] at heq
        rcases hit : sItemH h fuel mm rr item with ⟨h1, res1⟩
        have hf1 := hIt mm rr item h h1 res1 hit
        rw [hit] at heq
        cases res1 with
        | ok d =>
          simp at heq
          rcases hrest : sItemsH h1 fuel mm rr rest with ⟨hr2, res2⟩
          have hf2 := ihl h1 hr2 res2 hrest
          rw [hrest] at heq
          cases res2 with
          | ok ds =>
            simp at heq
            obtain ⟨he1, _⟩ := heq
            rw [← he1]
            exact FrameOK_trans hf1 hf2
          | error e =>
            simp at heq
            obtain ⟨he1, _⟩ := heq
            rw [← he1]
            exact FrameOK_trans hf1 hf2
        | error e =>
          simp at heq
          obtain ⟨he1, _⟩ := heq
          rw [← he1]
          exact hf1
    exact ⟨hEV, hIt, hEnts, hItems⟩

/-- `sanitize_dict` on the heap only extends the heap. -/
theorem sanitizeDictValH_frame {h h2 : Heap} {fuel : Nat} {v : HVal}
    {res : Except String HVal} (heq : sanitizeDictValH h fuel v = (h2, res)) :
    FrameOK h h2 := by
  match v with
  | .hstr s | .hint n | .hbool b | .hnull =>
    simp [sanitizeDictValH] at heq
    obtain ⟨he1, _⟩ := heq
    rw [← he1]
    exact FrameOK_refl h
  | .href a =>
    match fuel, hget : h.get a with
    | _, none =>
      simp [sanitizeDictValH, hget] at heq
      obtain ⟨he1, _⟩ := heq
      rw [← he1]
      exact FrameOK_refl h
    | 0, some o =>
      simp [sanitizeDictValH, hget] at heq
      obtain ⟨he1, _⟩ := heq
      rw [← he1]
      exact FrameOK_refl h
    | f + 1, some (.hdict kvs) =>
      simp [sanitizeDictValH, hget] at heq
      rcases hse : sEntriesH h f defaultMinMask defaultRules kvs with ⟨h1, res1⟩
      have hf1 := ((sanitizeH_frame f).2.2.1) defaultMinMask defaultRules kvs h h1 res1 hse
      rw [hse] at heq
      cases res1 with
      | ok es =>
        simp at heq
        obtain ⟨he1, _⟩ := heq
        rw [← he1]
        exact FrameOK_trans hf1 (FrameOK_alloc h1 _)
      | error e =>
        simp at heq
        obtain ⟨he1, _⟩ := heq
        rw [← he1]
        exact hf1
    | f + 1, some (.hlist items) =>
      simp [sanitizeDictValH, hget] at heq
      obtain ⟨he1, _⟩ := heq
      rw [← he1]
      exact FrameOK_refl h

/-! ### The in-place `result` mutations only touch the fresh copy. -/

theorem lookup_mem {α : Type} [BEq α] {l : List (α × HVal)} {k : α} {v : HVal}
    (hl : List.lookup k l = some v) : ∃ k2, (k2, v) ∈ l := by
  induction l with
  | nil => simp [List.lookup] at hl
  | cons kv rest ih =>
    rcases kv with ⟨a, b⟩
    rw [List.lookup] at hl
    cases hab : k == a
    · rw [hab] at hl
      simp at hl
      obtain ⟨k2, hk2⟩ := ih hl
      exact ⟨k2, by simp [hk2]⟩
    · rw [hab] at hl
      simp at hl
      subst hl
      exact ⟨a, by simp⟩

theorem resStep1_frame {n : Nat} {h : Heap} {ra : Nat}
    (hra : n ≤ ra) (hreg : regionGE n h) :
    agreesBelow n h (resStep1 h ra).1 ∧ (resStep1 h ra).1.size = h.size := by
  unfold resStep1
  repeat' split
  all_goals try exact ⟨agreesBelow_refl _ _, rfl⟩
  rename_i x4 kvs0 hget x3 pa hlk x2 pkvs hget2 x1 ov hlk2 x0 nv hsan
  have hpa : n ≤ pa := by
    have hobj := hreg ra hra _ hget
    obtain ⟨k2, hk2⟩ := lookup_mem hlk
    simpa [valGE] using hobj (k2, .href pa) hk2
  exact ⟨agreesBelow_put hpa h _, put_size h pa _⟩

theorem resStep2_frame {n : Nat} {h : Heap} {ra : Nat} (hra : n ≤ ra) :
    agreesBelow n h (resStep2 h ra) ∧ (resStep2 h ra).size = h.size := by
  unfold resStep2
  repeat' split
  all_goals try exact ⟨agreesBelow_refl _ _, rfl⟩
  exact ⟨agreesBelow_put hra h _, put_size h ra _⟩

theorem resStep3_frame {n : Nat} {h : Heap} {ra : Nat} (hra : n ≤ ra) :
    agreesBelow n h (resStep3 h ra) ∧ (resStep3 h ra).size = h.size := by
  unfold resStep3
  repeat' split
  all_goals try exact ⟨agreesBelow_refl _ _, rfl⟩
  exact ⟨agreesBelow_put hra h _, put_size h ra _⟩

theorem resultSanitizeH_frame {n : Nat} {h : Heap} {ra : Nat}
    (hra : n ≤ ra) (hreg : regionGE n h) :
    agreesBelow n h (resultSanitizeH h ra).1 ∧
    (resultSanitizeH h ra).1.size = h.size := by
  unfold resultSanitizeH
  split
  · split
    · rename_i kvs0 hget h1 u heq1
      obtain ⟨ag1, sz1⟩ := resStep1_frame hra hreg (h := h)
      rw [heq1] at ag1 sz1
      obtain ⟨ag2, sz2⟩ := resStep2_frame hra (h := h1)
      obtain ⟨ag3, sz3⟩ := resStep3_frame hra (h := resStep2 h1 ra)
      constructor
      · exact agreesBelow_trans (le_refl n)
          (agreesBelow_trans (le_refl n) ag1 ag2) ag3
      · simp only []
        rw [sz3, sz2]
        exact sz1
    · rename_i kvs0 hget h1 e heq1
      obtain ⟨ag1, sz1⟩ := resStep1_frame hra hreg (h := h)
      rw [heq1] at ag1 sz1
      exact ⟨ag1, sz1⟩
  · exact ⟨agreesBelow_refl _ _, rfl⟩

/-! ### The whole filter never changes a pre-existing object. -/

theorem filterArgsH_frame {h h2 : Heap} {fuel : Nat} {r : HRec}
    {res : Except String HRec}
    (heq : filterArgsH h fuel r = (h2, res)) : FrameOK h h2 := by
  unfold filterArgsH at heq
  split at heq
  · rename_i a harg
    split at heq
    · split at heq
      · rename_i h1 aCopy hdc
        obtain ⟨agD, szD, _, _⟩ := dcVal_spec h fuel a h1 (.ok aCopy) hdc
        split at heq
        · rename_i hs2 a2 hsan
          have hfS := sanitizeDictValH_frame hsan
          simp at heq
          rw [← heq.1]
          exact FrameOK_trans ⟨agD, szD⟩ hfS
        · rename_i hs2 e hsan
          have hfS := sanitizeDictValH_frame hsan
          simp at heq
          rw [← heq.1]
          exact FrameOK_trans ⟨agD, szD⟩ hfS
      · rename_i h1 e hdc
        obtain ⟨agD, szD, _, _⟩ := dcVal_spec h fuel a h1 (.error e) hdc
        simp at heq
        rw [← heq.1]
        exact ⟨agD, szD⟩
    · simp at heq
      rw [← heq.1]
      exact FrameOK_refl h
  · simp at heq
    rw [← heq.1]
    exact FrameOK_refl h

theorem filterResultH_frame {h h2 : Heap} {fuel : Nat} {r : HRec}
    {res : Except String HRec}
    (heq : filterResultH h fuel r = (h2, res)) : FrameOK h h2 := by
  unfold filterResultH at heq
  split at heq
  · rename_i rv hres
    split at heq
    · split at heq
      · rename_i h1 ra hdc
        obtain ⟨agD, szD, rgD, valD⟩ :=
          dcVal_spec h fuel rv h1 (.ok (.href ra)) hdc
        have hraGE : h.size ≤ ra := by
          have := valD (.href ra) rfl
          simpa [valGE] using this
        obtain ⟨agR, szR⟩ := resultSanitizeH_frame hraGE rgD (h := h1)
        have hcomp : FrameOK h (resultSanitizeH h1 ra).1 :=
          ⟨agreesBelow_trans (le_refl _) agD agR, by omega⟩
        split at heq
        · rename_i h3 u hrs
          rw [hrs] at hcomp
          simp at heq
          rw [← heq.1]
          exact hcomp
        · rename_i h3 e hrs
          rw [hrs] at hcomp
          simp at heq
          rw [← heq.1]
          exact hcomp
      · rename_i h1 rc hnotref hdc
        obtain ⟨agD, szD, _, _⟩ := dcVal_spec h fuel rv h1 (.ok rc) hdc
        simp at heq
        rw [← heq.1]
        exact ⟨agD, szD⟩
      · rename_i h1 e hdc
        obtain ⟨agD, szD, _, _⟩ := dcVal_spec h fuel rv h1 (.error e) hdc
        simp at heq
        rw [← heq.1]
        exact ⟨agD, szD⟩
    · simp at heq
      rw [← heq.1]
      exact FrameOK_refl h
  · simp at heq
    rw [← heq.1]
    exact FrameOK_refl h

/-- `PrivacyFilter.filter` never changes a pre-existing heap object
(whether it returns or raises). -/
theorem filterH_preserves {h h2 : Heap} {fuel : Nat} {mode : LoggingMode}
    {r : HRec} {res : Except String (Bool × HRec)}
    (heq : filterH h fuel mode r = (h2, res)) : FrameOK h h2 := by
  unfold filterH at heq
  by_cases hmin : mode = .MINIMAL ∧ r.levelno < logWARNING
  · rw [if_pos hmin] at heq
    simp at heq
    rw [← heq.1]
    exact FrameOK_refl h
  rw [if_neg hmin] at heq
  by_cases hpriv : mode = .PRIVACY
  · rw [if_pos hpriv] at heq
    split at heq
    · rename_i h1 r2 hfa
      have hf1 := filterArgsH_frame hfa
      split at heq
      · rename_i h3 r3 hfr
        have hf2 := filterResultH_frame hfr
        simp at heq
        rw [← heq.1]
        exact FrameOK_trans hf1 hf2
      · rename_i h3 e hfr
        have hf2 := filterResultH_frame hfr
        simp at heq
        rw [← heq.1]
        exact FrameOK_trans hf1 hf2
    · rename_i h1 e hfa
      have hf1 := filterArgsH_frame hfa
      simp at heq
      rw [← heq.1]
      exact hf1
  · rw [if_neg hpriv] at heq
    simp at heq
    rw [← heq.1]
    exact FrameOK_refl h

/-- C1: Running `PrivacyFilter.filter` in `PRIVACY` mode on a record
carrying caller-built nested JSON structures as `arguments` and `result`
never changes the caller's objects: every readback of the attached
values (at any depth, i.e. any fuel) is identical before and after the
filter runs — whether the filter returns or raises — and that readback
is exactly the tree the caller built. -/
theorem c1_filter_non_mutation (argT resT : JVal) (lvl ffuel rfuel : Nat)
    (msg : String) (h0 h1 h2 : Heap) (av rv : HVal)
    (res : Except String (Bool × HRec))
    (hm0 : matVal ⟨[]⟩ argT = (h0, av))
    (hm1 : matVal h0 resT = (h1, rv))
    (hrun : filterH h1 ffuel .PRIVACY ⟨lvl, msg, some av, some rv⟩ = (h2, res)) :
    readVal h2 rfuel av = readVal h1 rfuel av ∧
    readVal h2 rfuel rv = readVal h1 rfuel rv ∧
    readVal h1 h1.size av = some argT ∧
    readVal h1 h1.size rv = some resT := by
  obtain ⟨hc0, hv0, hr0⟩ := matVal_read ⟨[]⟩ argT closedStrict_empty
  obtain ⟨hagM, hszM⟩ := matVal_frame h0 resT
  obtain ⟨hc1, hv1, hr1⟩ := matVal_read h0 resT (by rw [hm0] at hc0; exact hc0)
  rw [hm0] at hc0 hv0 hr0
  rw [hm1] at hagM hszM hc1 hv1 hr1
  obtain ⟨hagF, hszF⟩ := filterH_preserves hrun
  have hvlt0 : valLT h1.size av := valLT_mono hszM hv0
  refine ⟨?_, ?_, ?_, ?_⟩
  · exact readVal_agrees (closedBelow_of_strict hc1) hagF rfuel av hvlt0
  · exact readVal_agrees (closedBelow_of_strict hc1) hagF rfuel rv hv1
  · rw [readVal_agrees (closedBelow_of_strict hc0) hagM h1.size av hv0]
    exact hr0 h1.size hszM
  · exact hr1 h1.size (le_refl _)


/-! ### `List.span` unfolding and the journal pattern's minimum length -/

theorem span_loop_eq {α : Type} (p : α → Bool) :
    ∀ (l acc : List α),
      List.span.loop p l acc = (acc.reverse ++ l.takeWhile p, l.dropWhile p) := by
  intro l
  induction l with
  | nil =>
    intro acc
    simp [List.span.loop, List.takeWhile, List.dropWhile]
  | cons a as ih =>
    intro acc
    by_cases hp : p a
    · simp [List.span.loop, hp, List.takeWhile_cons, List.dropWhile_cons, ih]
    · simp [List.span.loop, hp, List.takeWhile_cons, List.dropWhile_cons]

theorem span_eq {α : Type} (p : α → Bool) (l : List α) :
    l.span p = (l.takeWhile p, l.dropWhile p) := by
  unfold List.span
  simpa using span_loop_eq p l []

/-- Any name matched by the journal regex `^\w+\s+\d+\w*,\s+\d{4}$` has at
least 9 characters: one word char, one space, one digit, the comma, one
space and four year digits. -/
theorem journalMatch_min_length {name : String} (hm : journalMatch name = true) :
    9 ≤ name.length := by
  unfold journalMatch at hm
  simp only [span_eq] at hm
  split at hm
  · simp at hm
  split at hm
  · simp at hm
  split at hm
  case _ d r3 heq3 =>
    split at hm
    · simp at hm
    split at hm
    case _ r5 heq5 =>
      split at hm
      · simp at hm
      split at hm
      case _ a b c e heq7 =>
        have hlen : name.length = name.data.length := rfl
        have e1 := congrArg List.length
          (List.takeWhile_append_dropWhile (p := isWordChar) (l := name.data))
        have e2 := congrArg List.length
          (List.takeWhile_append_dropWhile (p := isSpaceChar)
            (l := List.dropWhile isWordChar name.data))
        have e3 := congrArg List.length heq3
        have e4 := congrArg List.length
          (List.takeWhile_append_dropWhile (p := isWordChar) (l := r3))
        have e5 := congrArg List.length heq5
        have e6 := congrArg List.length
          (List.takeWhile_append_dropWhile (p := isSpaceChar) (l := r5))
        have e7 := congrArg List.length heq7
        simp only [List.length_append, List.length_cons, List.length_nil] at e1 e2 e3 e4 e5 e6 e7
        have n1 : (List.takeWhile isWordChar name.data).length ≠ 0 := by
          intro h0
          exact ‹¬(List.takeWhile isWordChar name.data).isEmpty = true›
            (by simp [List.length_eq_zero.mp h0])
        have n2 : (List.takeWhile isSpaceChar
            (List.dropWhile isWordChar name.data)).length ≠ 0 := by
          intro h0
          exact ‹¬(List.takeWhile isSpaceChar
            (List.dropWhile isWordChar name.data)).isEmpty = true›
            (by simp [List.length_eq_zero.mp h0])
        have n6 : (List.takeWhile isSpaceChar r5).length ≠ 0 := by
          intro h0
          exact ‹¬(List.takeWhile isSpaceChar r5).isEmpty = true›
            (by simp [List.length_eq_zero.mp h0])
        rw [hlen]
        omega
      case _ a b c e heq7 =>
        have hlen : name.length = name.data.length := rfl
        have e1 := congrArg List.length
          (List.takeWhile_append_dropWhile (p := isWordChar) (l := name.data))
        have e2 := congrArg List.length
          (List.takeWhile_append_dropWhile (p := isSpaceChar)
            (l := List.dropWhile isWordChar name.data))
        have e3 := congrArg List.length heq3
        have e4 := congrArg List.length
          (List.takeWhile_append_dropWhile (p := isWordChar) (l := r3))
        have e5 := congrArg List.length heq5
        have e6 := congrArg List.length
          (List.takeWhile_append_dropWhile (p := isSpaceChar) (l := r5))
        have e7 := congrArg List.length heq7
        simp only [List.length_append, List.length_cons, List.length_nil] at e1 e2 e3 e4 e5 e6 e7
        have n1 : (List.takeWhile isWordChar name.data).length ≠ 0 := by
          intro h0
          exact ‹¬(List.takeWhile isWordChar name.data).isEmpty = true›
            (by simp [List.length_eq_zero.mp h0])
        have n2 : (List.takeWhile isSpaceChar
            (List.dropWhile isWordChar name.data)).length ≠ 0 := by
          intro h0
          exact ‹¬(List.takeWhile isSpaceChar
            (List.dropWhile isWordChar name.data)).isEmpty = true›
            (by simp [List.length_eq_zero.mp h0])
        have n6 : (List.takeWhile isSpaceChar r5).length ≠ 0 := by
          intro h0
          exact ‹¬(List.takeWhile isSpaceChar r5).isEmpty = true›
            (by simp [List.length_eq_zero.mp h0])
        rw [hlen]
        omega
      case _ => simp at hm
    case _ => simp at hm
  case _ => simp at hm

/-- C4 counterexample: the name `Jul 1st, 2024` matches the journal date
pattern, yet with `min_mask_length = 13` (the name's exact length)
`sanitize_page_name` returns it unchanged, not `[journal_page]`: the
too-short-to-mask check at sanitizer.py:77 runs before the journal-pattern
check at sanitizer.py:81, so a large enough `min_mask_length` defeats the
claimed short-circuit. -/
theorem c4_counterexample :
    journalMatch "Jul 1st, 2024" = true ∧
    sanitize_page_name_str 13 "Jul 1st, 2024" = "Jul 1st, 2024" ∧
    "Jul 1st, 2024" ≠ "[journal_page]" :=
  ⟨rfl, rfl, by decide⟩

/-- C4 amended: whenever `min_mask_length ≤ 8` — which covers the default
of 3 — every name matching the journal date pattern sanitizes to the
fixed `[journal_page]` marker, since any journal match is at least 9
characters long and therefore passes both the emptiness check and the
too-short-to-mask check. -/
theorem c4_journal_short_circuit (minMask : Nat) (name : String)
    (hmm : minMask ≤ 8) (hj : journalMatch name = true) :
    sanitize_page_name_str minMask name = "[journal_page]" := by
  have h9 := journalMatch_min_length hj
  have hne : ¬ name.isEmpty = true := by
    intro hc
    rw [String.isEmpty_iff] at hc
    subst hc
    simp [String.length] at h9
  unfold sanitize_page_name_str
  rw [if_neg hne, if_neg (by omega : ¬ name.length ≤ minMask), if_pos hj]

/-- C4 witness: at the default `min_mask_length` of 3, the journal page
name `Jul 1st, 2024` sanitizes to `[journal_page]`. -/
theorem c4_journal_short_circuit_witness :
    defaultMinMask ≤ 8 ∧
    sanitize_page_name_str defaultMinMask "Jul 1st, 2024" = "[journal_page]" :=
  ⟨by decide, c4_journal_short_circuit defaultMinMask "Jul 1st, 2024" (by decide) (by rfl)⟩


/-! ### Hex output of `hexdigest()` -/

theorem hexChar_hex (n : Nat) : isHexChar (hexChar n) = true := by
  unfold hexChar isHexChar
  rcases Nat.lt_or_ge n 16 with h | h
  · interval_cases n <;> decide
  · rw [List.getD_eq_default]
    · decide
    · have h16 : hexDigits.length = 16 := rfl
      omega

theorem hexOfBytes_hex (bs : List Nat) :
    ∀ c ∈ hexOfBytes bs, isHexChar c = true := by
  induction bs with
  | nil => intro c hc; simp [hexOfBytes] at hc
  | cons b rest ih =>
    intro c hc
    simp only [hexOfBytes, List.flatMap_cons, List.mem_append] at hc
    rcases hc with hc | hc
    · simp [byteHex] at hc
      rcases hc with hc | hc
      · rw [hc]; exact hexChar_hex _
      · rw [hc]; exact hexChar_hex _
    · exact ih c hc

theorem hexOfBytes_length (bs : List Nat) :
    (hexOfBytes bs).length = 2 * bs.length := by
  induction bs with
  | nil => rfl
  | cons b rest ih =>
    simp only [hexOfBytes, List.flatMap_cons, List.length_append,
      List.length_cons, byteHex, List.length_nil] at ih ⊢
    omega

theorem sha256_length (m : List Nat) : (sha256 m).length = 32 := by
  simp [sha256, wordBytes]

/-- C6: `sanitize_block_id` is deterministic (it is a pure function of the
digest of its input), and for every non-empty input the token is exactly
`block_` followed by 6 hexadecimal characters — the first 6 hex digits of
the SHA-256 hash of the input — while `None` and the empty string map to
the `[empty]` marker. -/
theorem c6_block_id_masking (x : String) (hx : x.isEmpty = false) :
    sanitize_block_id (some x) = sanitize_block_id (some x) ∧
    (∃ cs : List Char, cs.length = 6 ∧ (∀ c ∈ cs, isHexChar c = true) ∧
      sanitize_block_id (some x) = "block_" ++ String.mk cs ∧
      cs = (hexOfBytes (sha256 (utf8Encode x))).take 6) ∧
    sanitize_block_id none = "[empty]" ∧
    sanitize_block_id (some "") = "[empty]" := by
  refine ⟨rfl, ⟨(hexOfBytes (sha256 (utf8Encode x))).take 6, ?_, ?_, ?_, rfl⟩, rfl, by decide⟩
  · rw [List.length_take, hexOfBytes_length, sha256_length]; rfl
  · intro c hc
    exact hexOfBytes_hex _ c (List.mem_of_mem_take hc)
  · simp [sanitize_block_id, hx]

/-- C6 witness: the format theorem instantiated at the block id `uuid-1`
used by the unit tests. -/
theorem c6_block_id_masking_witness :
    ("uuid-1" : String).isEmpty = false ∧
    (sanitize_block_id (some "uuid-1") = sanitize_block_id (some "uuid-1") ∧
    (∃ cs : List Char, cs.length = 6 ∧ (∀ c ∈ cs, isHexChar c = true) ∧
      sanitize_block_id (some "uuid-1") = "block_" ++ String.mk cs ∧
      cs = (hexOfBytes (sha256 (utf8Encode "uuid-1"))).take 6) ∧
    sanitize_block_id none = "[empty]" ∧
    sanitize_block_id (some "") = "[empty]") :=
  ⟨by decide, c6_block_id_masking "uuid-1" (by decide)⟩


/-! ### C2: when `sanitize_dict` raises -/

theorem isOk_seq {α β γ ε : Type} (X : Except ε α) (Y : Except ε β) (g : α → β → γ) :
    (do let a ← X; let b ← Y; pure (g a b) : Except ε γ).isOk = (X.isOk && Y.isOk) := by
  cases X <;> cases Y <;> rfl

/-- C3 counterexample: under `PRIVACY` mode the end-to-end scenario
rewrites the message and masks `page_name`, but `content` — the 20-char
string `twenty char string!!` — becomes `[content_20_chars]`, not the
`[content_21_chars]` the spec states. -/
theorem c3_counterexample :
    privacyFilter .PRIVACY ⟨20, "Getting page: My Secret Plan",
        some (.jdict [("page_name", .jstr "My Secret Plan"),
                      ("content", .jstr "twenty char string!!")]), none⟩ =
      .ok (true, ⟨20, "Getting page: My ***lan",
        some (.jdict [("page_name", .jstr "My ***lan"),
                      ("content", .jstr "[content_20_chars]")]), none⟩) ∧
    "[content_20_chars]" ≠ "[content_21_chars]" := by
  constructor
  · simp +decide [privacyFilter, sanitizeMessage, passQuoted, passRun,
      sanitize_query, isQuoteChar, pyTruthy, sanitize_dict_val, sanitize_dict,
      logWARNING, sanitize_page_name_str, journalMatch, sanitizeEntries,
      sanitizeEntryVal, dispatchRule, sanitize_page_name_v, sanitize_content_v,
      defaultRules, defaultMinMask, isDictOrList]
    rfl
  · decide

/-- C3 amended: the scenario's full behaviour — the record comes back
accepted with message `Getting page: My ***lan`, `page_name` masked the
same way, and `content` replaced by `[content_20_chars]`; and in the
mutable-heap model the run of `filter` leaves every readback of the
caller's original `arguments` object unchanged at every depth. -/
theorem c3_end_to_end (ffuel rfuel : Nat) :
    privacyFilter .PRIVACY ⟨20, "Getting page: My Secret Plan",
        some (.jdict [("page_name", .jstr "My Secret Plan"),
                      ("content", .jstr "twenty char string!!")]), none⟩ =
      .ok (true, ⟨20, "Getting page: My ***lan",
        some (.jdict [("page_name", .jstr "My ***lan"),
                      ("content", .jstr "[content_20_chars]")]), none⟩) ∧
    readVal
      (filterH (matVal ⟨[]⟩ (.jdict [("page_name", .jstr "My Secret Plan"),
          ("content", .jstr "twenty char string!!")])).1 ffuel .PRIVACY
        ⟨20, "Getting page: My Secret Plan",
         some (matVal ⟨[]⟩ (.jdict [("page_name", .jstr "My Secret Plan"),
            ("content", .jstr "twenty char string!!")])).2, none⟩).1
      rfuel
      (matVal ⟨[]⟩ (.jdict [("page_name", .jstr "My Secret Plan"),
          ("content", .jstr "twenty char string!!")])).2 =
    readVal
      (matVal ⟨[]⟩ (.jdict [("page_name", .jstr "My Secret Plan"),
          ("content", .jstr "twenty char string!!")])).1
      rfuel
      (matVal ⟨[]⟩ (.jdict [("page_name", .jstr "My Secret Plan"),
          ("content", .jstr "twenty char string!!")])).2 := by
  constructor
  · simp +decide [privacyFilter, sanitizeMessage, passQuoted, passRun,
      sanitize_query, isQuoteChar, pyTruthy, sanitize_dict_val, sanitize_dict,
      logWARNING, sanitize_page_name_str, journalMatch, sanitizeEntries,
      sanitizeEntryVal, dispatchRule, sanitize_page_name_v, sanitize_content_v,
      defaultRules, defaultMinMask, isDictOrList]
    rfl
  · obtain ⟨hc0, hv0, hr0⟩ := matVal_read ⟨[]⟩
      (.jdict [("page_name", .jstr "My Secret Plan"),
               ("content", .jstr "twenty char string!!")]) closedStrict_empty
    obtain ⟨hagF, hszF⟩ := filterH_preserves
      (rfl :
        filterH (matVal ⟨[]⟩ (.jdict [("page_name", .jstr "My Secret Plan"),
            ("content", .jstr "twenty char string!!")])).1 ffuel .PRIVACY
          ⟨20, "Getting page: My Secret Plan",
           some (matVal ⟨[]⟩ (.jdict [("page_name", .jstr "My Secret Plan"),
              ("content", .jstr "twenty char string!!")])).2, none⟩ = _)
    exact readVal_agrees (closedBelow_of_strict hc0) hagF rfuel _ hv0


/-- C5: mode gating of `PrivacyFilter.filter` — `MINIMAL` rejects records
below the warning threshold and accepts (untouched) those at or above it;
`DEBUG` accepts every record completely unchanged; `PRIVACY` accepts with
the message rewritten by the five sanitization patterns, the severity
intact, a truthy `arguments` mapping replaced by its
`sanitize_dict`-sanitized copy, and a mapping-shaped `result` replaced by
its `resultSanitize`-rewritten copy. -/
theorem c5_mode_gating (r : LogRec) :
    (r.levelno < logWARNING → privacyFilter .MINIMAL r = .ok (false, r)) ∧
    (logWARNING ≤ r.levelno → privacyFilter .MINIMAL r = .ok (true, r)) ∧
    privacyFilter .DEBUG r = .ok (true, r) ∧
    (∀ b r2, privacyFilter .PRIVACY r = .ok (b, r2) →
      b = true ∧ r2.msg = sanitizeMessage r.msg ∧ r2.levelno = r.levelno ∧
      (∀ a, r.arguments = some a → pyTruthy a = true →
        ∃ a2, sanitize_dict_val a = .ok a2 ∧ r2.arguments = some a2) ∧
      (∀ kvs, r.result = some (.jdict kvs) →
        ∃ kvs2, resultSanitize kvs = .ok kvs2 ∧
          r2.result = some (.jdict kvs2))) := by
  refine ⟨?_, ?_, ?_, ?_⟩
  · intro hlt
    unfold privacyFilter
    rw [if_pos ⟨rfl, hlt⟩]
  · intro hge
    unfold privacyFilter
    rw [if_neg (by rintro ⟨h1, h2⟩; omega), if_neg (by simp)]
  · unfold privacyFilter
    rw [if_neg (by rintro ⟨h1, h2⟩; exact absurd h1 (by simp)), if_neg (by simp)]
  · intro b r2 hok
    unfold privacyFilter at hok
    rw [if_neg (by rintro ⟨h1, h2⟩; exact absurd h1 (by simp)), if_pos rfl] at hok
    rcases harg : r.arguments with _ | a
    · simp only [harg, Bind.bind, Except.bind, pure, Except.pure] at hok
      split at hok
      · rename_i kvs heqr
        rcases hrs : resultSanitize kvs with e | kvs2 <;>
          simp only [hrs] at hok
        · exact (Except.noConfusion hok)
        · injection hok with h1
          injection h1 with hb hr2
          subst hb
          refine ⟨rfl, by rw [← hr2], by rw [← hr2], ?_, ?_⟩
          · intro a ha
            exact (Option.noConfusion ha)
          · intro kvs3 hkvs
            rw [heqr] at hkvs
            injection hkvs with h5
            injection h5 with h6
            subst h6
            exact ⟨kvs2, hrs, by rw [← hr2]⟩
      · rename_i hnd
        injection hok with h1
        injection h1 with hb hr2
        subst hb
        refine ⟨rfl, by rw [← hr2], by rw [← hr2], ?_, ?_⟩
        · intro a ha
          exact (Option.noConfusion ha)
        · intro kvs3 hkvs
          exact (hnd kvs3 hkvs).elim
    · simp only [harg, Bind.bind, Except.bind] at hok
      by_cases hta : pyTruthy a = true
      · rw [if_pos hta] at hok
        rcases hsd : sanitize_dict_val a with e | a2 <;>
          simp only [hsd, Bind.bind, Except.bind, pure, Except.pure] at hok
        · exact (Except.noConfusion hok)
        · split at hok
          · rename_i kvs heqr
            rcases hrs : resultSanitize kvs with e | kvs2 <;>
              simp only [hrs] at hok
            · exact (Except.noConfusion hok)
            · injection hok with h1
              injection h1 with hb hr2
              subst hb
              refine ⟨rfl, by rw [← hr2], by rw [← hr2], ?_, ?_⟩
              · intro a3 ha3
                injection ha3 with haa
                subst haa
                intro _
                exact ⟨a2, hsd, by rw [← hr2]⟩
              · intro kvs3 hkvs
                rw [heqr] at hkvs
                injection hkvs with h5
                injection h5 with h6
                subst h6
                exact ⟨kvs2, hrs, by rw [← hr2]⟩
          · rename_i hnd
            injection hok with h1
            injection h1 with hb hr2
            subst hb
            refine ⟨rfl, by rw [← hr2], by rw [← hr2], ?_, ?_⟩
            · intro a3 ha3
              injection ha3 with haa
              subst haa
              intro _
              exact ⟨a2, hsd, by rw [← hr2]⟩
            · intro kvs3 hkvs
              exact (hnd kvs3 hkvs).elim
      · rw [if_neg hta] at hok
        simp only [Bind.bind, Except.bind, pure, Except.pure] at hok
        split at hok
        · rename_i kvs heqr
          rcases hrs : resultSanitize kvs with e | kvs2 <;>
            simp only [hrs] at hok
          · exact (Except.noConfusion hok)
          · injection hok with h1
            injection h1 with hb hr2
            subst hb
            refine ⟨rfl, by rw [← hr2], by rw [← hr2], ?_, ?_⟩
            · intro a3 ha3
              injection ha3 with haa
              subst haa
              intro hta2
              exact absurd hta2 hta
            · intro kvs3 hkvs
              rw [heqr] at hkvs
              injection hkvs with h5
              injection h5 with h6
              subst h6
              exact ⟨kvs2, hrs, by rw [← hr2]⟩
        · rename_i hnd
          injection hok with h1
          injection h1 with hb hr2
          subst hb
          refine ⟨rfl, by rw [← hr2], by rw [← hr2], ?_, ?_⟩
          · intro a3 ha3
            injection ha3 with haa
            subst haa
            intro hta2
            exact absurd hta2 hta
          · intro kvs3 hkvs
            exact (hnd kvs3 hkvs).elim

/-- C5 witness: the gating theorem instantiated at informational (20) and
warning (30) severity records in each mode. -/
theorem c5_mode_gating_witness :
    (20 < logWARNING ∧
      privacyFilter .MINIMAL ⟨20, "m", none, none⟩ = .ok (false, ⟨20, "m", none, none⟩)) ∧
    (logWARNING ≤ 30 ∧
      privacyFilter .MINIMAL ⟨30, "m", none, none⟩ = .ok (true, ⟨30, "m", none, none⟩)) ∧
    privacyFilter .DEBUG ⟨20, "m", none, none⟩ = .ok (true, ⟨20, "m", none, none⟩) ∧
    (privacyFilter .PRIVACY ⟨20, "m", none, some (.jdict [])⟩ =
        .ok (true, ⟨20, sanitizeMessage "m", none, some (.jdict [])⟩) ∧
      (true : Bool) = true ∧
      (∃ kvs2, resultSanitize [] = .ok kvs2 ∧
        (⟨20, sanitizeMessage "m", none, some (.jdict [])⟩ : LogRec).result =
          some (.jdict kvs2))) :=
  ⟨⟨by decide, (c5_mode_gating ⟨20, "m", none, none⟩).1 (by decide)⟩,
   ⟨by decide, (c5_mode_gating ⟨30, "m", none, none⟩).2.1 (by decide)⟩,
   (c5_mode_gating ⟨20, "m", none, none⟩).2.2.1,
   rfl,
   ((c5_mode_gating ⟨20, "m", none, some (.jdict [])⟩).2.2.2 true
     ⟨20, sanitizeMessage "m", none, some (.jdict [])⟩ rfl).1,
   ((c5_mode_gating ⟨20, "m", none, some (.jdict [])⟩).2.2.2 true
     ⟨20, sanitizeMessage "m", none, some (.jdict [])⟩ rfl).2.2.2.2 [] rfl⟩


/-- C7 counterexample: on a transport failure `get_page_blocks` does NOT
re-raise — it catches the exception, logs it at error severity WITHOUT
trace information (`exc_info` is not set on the client.py:287 log call),
and returns the empty list, swallowing the upstream error. -/
theorem c7_counterexample :
    (getPageBlocks "Page" (.transportError "boom")).2 = .ok (.jlist []) ∧
    (getPageBlocks "Page" (.transportError "boom")).1 =
      [.debugRequest "logseq.Editor.getPageBlocksTree", .infoPayload,
       .errorRequestFailed "logseq.Editor.getPageBlocksTree" true,
       .errorPageBlocks "Page" false] ∧
    LogEvent.hasTrace (.errorPageBlocks "Page" false) = false :=
  ⟨rfl, rfl, rfl⟩

/-- C7 amended: `_request` itself does log every upstream failure at error
severity with `exc_info=True` and re-raises; but the list-shaped wrappers
(`get_page_blocks` shown here) catch that exception and return `[]`
normally, so the error does not propagate past them. -/
theorem c7_request_reraise (action : String) (up : Upstream)
    (hf : up.isFailure = true) :
    (∃ e, (clientRequest action up).2 = .error e) ∧
    (∃ ev, ev ∈ (clientRequest action up).1 ∧ ev.levelno = 40 ∧
      ev.hasTrace = true) ∧
    (∀ name, (getPageBlocks name up).2 = .ok (.jlist []) ∧
      (getPageBlocks name up).1 =
        (clientRequest "logseq.Editor.getPageBlocksTree" up).1 ++
          [.errorPageBlocks name false]) := by
  cases up with
  | success body => simp [Upstream.isFailure] at hf
  | httpStatusError status text =>
    refine ⟨⟨_, rfl⟩, ⟨.errorHTTP action true, ?_, rfl, rfl⟩, ?_⟩
    · simp [clientRequest]
    · intro name
      exact ⟨rfl, rfl⟩
  | transportError m =>
    refine ⟨⟨_, rfl⟩, ⟨.errorRequestFailed action true, ?_, rfl, rfl⟩, ?_⟩
    · simp [clientRequest]
    · intro name
      exact ⟨rfl, rfl⟩

/-- C7 witness: the amended theorem instantiated at a transport error. -/
theorem c7_request_reraise_witness :
    Upstream.isFailure (.transportError "connection refused") = true ∧
    ((∃ e, (clientRequest "logseq.Editor.getPage"
        (.transportError "connection refused")).2 = .error e) ∧
    (∃ ev, ev ∈ (clientRequest "logseq.Editor.getPage"
        (.transportError "connection refused")).1 ∧ ev.levelno = 40 ∧
      ev.hasTrace = true) ∧
    (∀ name, (getPageBlocks name (.transportError "connection refused")).2 =
        .ok (.jlist []) ∧
      (getPageBlocks name (.transportError "connection refused")).1 =
        (clientRequest "logseq.Editor.getPageBlocksTree"
          (.transportError "connection refused")).1 ++
          [.errorPageBlocks name false])) :=
  ⟨rfl, c7_request_reraise "logseq.Editor.getPage"
    (.transportError "connection refused") rfl⟩


/-- C8: configuration-error recovery in `setup_logging` — a mode string
the enum rejects falls back to `PRIVACY` (in particular when nothing is
configured at all), an unparseable retention value keeps the
`retention_days` argument, and an unparseable size string keeps the
argument or its 10 MiB default; the resolvers are total, so none of
these errors reaches the caller. -/
theorem c8_config_fallback (env : LogEnv) (log_mode : Option String)
    (retention_days : Option Int) (max_file_size : Option Int) :
    (∀ e, parseLoggingMode (pyLower (envModeString env log_mode)) = .error e →
      resolveMode env log_mode = .PRIVACY) ∧
    (env.logMode = none → log_mode = none → resolveMode env log_mode = .PRIVACY) ∧
    (∀ es e, env.logRetention = some es → es.isEmpty = false →
      pyInt es = .error e → resolveRetention env retention_days = retention_days) ∧
    (∀ es e, env.logMaxSize = some es → es.isEmpty = false →
      parse_size es = .error e →
      resolveMaxFileSize env max_file_size =
        (match max_file_size with | none => 10 * 1024 * 1024 | some v => v)) := by
  refine ⟨?_, ?_, ?_, ?_⟩
  · intro e he
    simp [resolveMode, he]
  · intro h1 h2
    simp [resolveMode, envModeString, h1, h2, pyLower, parseLoggingMode]
  · intro es e h1 h2 h3
    simp [resolveRetention, h1, h2, h3]
  · intro es e h1 h2 h3
    simp [resolveMaxFileSize, h1, h2, h3]

/-- C8 witness: the fallback theorem instantiated at the unrecognized
mode `bogus`, unparseable retention `xx` and unparseable size
`not-a-size`. -/
theorem c8_config_fallback_witness :
    parseLoggingMode
      (pyLower (envModeString ⟨some "bogus", some "xx", some "not-a-size"⟩ none)) =
      .error "ValueError: not a valid LoggingMode" ∧
    ("xx" : String).isEmpty = false ∧
    pyInt "xx" = .error "ValueError: invalid literal for int" ∧
    ("not-a-size" : String).isEmpty = false ∧
    parse_size "not-a-size" = .error "ValueError: invalid literal for int" ∧
    resolveMode ⟨some "bogus", some "xx", some "not-a-size"⟩ none = .PRIVACY ∧
    resolveRetention ⟨some "bogus", some "xx", some "not-a-size"⟩ (some 7) = some 7 ∧
    resolveMaxFileSize ⟨some "bogus", some "xx", some "not-a-size"⟩ none =
      10 * 1024 * 1024 :=
  ⟨rfl, rfl, rfl, rfl, rfl,
   (c8_config_fallback ⟨some "bogus", some "xx", some "not-a-size"⟩ none
      (some 7) none).1 "ValueError: not a valid LoggingMode" rfl,
   (c8_config_fallback ⟨some "bogus", some "xx", some "not-a-size"⟩ none
      (some 7) none).2.2.1 "xx" "ValueError: invalid literal for int" rfl rfl rfl,
   (c8_config_fallback ⟨some "bogus", some "xx", some "not-a-size"⟩ none
      (some 7) none).2.2.2 "not-a-size" "ValueError: invalid literal for int"
      rfl rfl rfl⟩


theorem sanitizeEntries_keys (m : Nat) (r : List (String × String)) :
    ∀ (kvs out : List (String × JVal)),
      sanitizeEntries m r kvs = .ok out →
      out.map Prod.fst = kvs.map Prod.fst := by
  intro kvs
  induction kvs with
  | nil =>
    intro out h
    unfold sanitizeEntries at h
    injection h with h1
    rw [← h1]
  | cons kv rest ih =>
    intro out h
    obtain ⟨k, v⟩ := kv
    unfold sanitizeEntries at h
    rcases hv : sanitizeEntryVal m r k v with e | v2 <;>
      simp only [hv, Bind.bind, Except.bind] at h
    · exact (Except.noConfusion h)
    · rcases hr : sanitizeEntries m r rest with e | rest2 <;>
        simp only [hr, Bind.bind, Except.bind, pure, Except.pure] at h
      · exact (Except.noConfusion h)
      · injection h with h1
        rw [← h1]
        simp [ih rest2 hr]

/-- C9: whenever `sanitize_dict` returns normally, the returned dict has
exactly the input's keys in the input's order, and the same holds at
every nested mapping the recursion reaches (a nested dict value comes
back as a dict over the same keys): sanitization rewrites values only. -/
theorem c9_key_preservation (m : Nat) (rules : List (String × String)) :
    (∀ data out, sanitize_dict m rules data = .ok out →
      out.map Prod.fst = data.map Prod.fst) ∧
    (∀ k kvs v, sanitizeEntryVal m rules k (.jdict kvs) = .ok v →
      ∃ kvs2, v = .jdict kvs2 ∧ kvs2.map Prod.fst = kvs.map Prod.fst) := by
  constructor
  · intro data out h
    unfold sanitize_dict at h
    exact sanitizeEntries_keys m _ data out h
  · intro k kvs v h
    unfold sanitizeEntryVal at h
    rw [if_neg (by simp [isDictOrList])] at h
    rcases hs : sanitizeEntries m rules kvs with e | kvs2 <;>
      simp only [hs, Except.map] at h
    · exact (Except.noConfusion h)
    · injection h with h1
      exact ⟨kvs2, h1.symm, sanitizeEntries_keys m rules kvs kvs2 hs⟩

/-- C9 witness: key preservation instantiated at a two-key dict and at a
nested dict value. -/
theorem c9_key_preservation_witness :
    (sanitize_dict 3 [] [("a", JVal.jint 1), ("b", JVal.jstr "x")] =
      .ok [("a", JVal.jint 1), ("b", JVal.jstr "x")] ∧
     [("a", JVal.jint 1), ("b", JVal.jstr "x")].map Prod.fst =
       [("a", JVal.jint 1), ("b", JVal.jstr "x")].map Prod.fst) ∧
    (sanitizeEntryVal 3 [] "meta" (.jdict [("a", JVal.jint 1)]) =
      .ok (.jdict [("a", JVal.jint 1)]) ∧
     ∃ kvs2, (JVal.jdict [("a", JVal.jint 1)]) = .jdict kvs2 ∧
       kvs2.map Prod.fst = [("a", JVal.jint 1)].map Prod.fst) :=
  ⟨⟨rfl, (c9_key_preservation 3 []).1 [("a", JVal.jint 1), ("b", JVal.jstr "x")]
      [("a", JVal.jint 1), ("b", JVal.jstr "x")] rfl⟩,
   ⟨rfl, (c9_key_preservation 3 []).2 "meta" [("a", JVal.jint 1)]
      (.jdict [("a", JVal.jint 1)]) rfl⟩⟩


/-- C10: an empty-list value is not preserved and gets no count marker —
for every key (rule-keyed or not, since rule dispatch skips list values)
and every rule set, `sanitize_dict` turns `[]` into the literal string
`[list]` via the generic type-name branch. -/
theorem c10_empty_list_marker (m : Nat) (rules : List (String × String)) (k : String) :
    sanitizeEntryVal m rules k (.jlist []) = .ok (.jstr "[list]") ∧
    sanitize_dict m rules [(k, .jlist [])] = .ok [(k, .jstr "[list]")] := by
  constructor
  · unfold sanitizeEntryVal
    rw [if_neg (by simp [isDictOrList])]
  · have h : sanitizeEntryVal m (if rules.isEmpty then defaultRules else rules) k
        (.jlist []) = .ok (.jstr "[list]") := by
      unfold sanitizeEntryVal
      rw [if_neg (by simp [isDictOrList])]
    unfold sanitize_dict sanitizeEntries
    rw [h]
    unfold sanitizeEntries
    rfl


/-- C1 witness: the non-mutation theorem instantiated at a concrete run —
arguments `{"k": true}` and result `{}` are materialized at addresses 0
and 1, the filter run allocates only fresh addresses 2-4 and leaves every
readback of the originals unchanged. -/
theorem c1_filter_non_mutation_witness :
    (matVal ⟨[]⟩ (.jdict [("k", .jbool true)]) =
       (⟨[.hdict [("k", .hbool true)]]⟩, .href 0) ∧
     matVal ⟨[.hdict [("k", .hbool true)]]⟩ (.jdict []) =
       (⟨[.hdict [("k", .hbool true)], .hdict []]⟩, .href 1) ∧
     filterH ⟨[.hdict [("k", .hbool true)], .hdict []]⟩ 10 .PRIVACY
       ⟨20, "m", some (.href 0), some (.href 1)⟩ =
       (⟨[.hdict [("k", .hbool true)], .hdict [], .hdict [("k", .hbool true)],
          .hdict [("k", .hbool true)], .hdict []]⟩,
        .ok (true, ⟨20, "m", some (.href 3), some (.href 4)⟩))) ∧
    (readVal
        ⟨[.hdict [("k", .hbool true)], .hdict [], .hdict [("k", .hbool true)],
          .hdict [("k", .hbool true)], .hdict []]⟩ 5 (.href 0) =
      readVal ⟨[.hdict [("k", .hbool true)], .hdict []]⟩ 5 (.href 0) ∧
     readVal
        ⟨[.hdict [("k", .hbool true)], .hdict [], .hdict [("k", .hbool true)],
          .hdict [("k", .hbool true)], .hdict []]⟩ 5 (.href 1) =
      readVal ⟨[.hdict [("k", .hbool true)], .hdict []]⟩ 5 (.href 1) ∧
     readVal ⟨[.hdict [("k", .hbool true)], .hdict []]⟩
        (Heap.size ⟨[.hdict [("k", .hbool true)], .hdict []]⟩) (.href 0) =
      some (.jdict [("k", .jbool true)]) ∧
     readVal ⟨[.hdict [("k", .hbool true)], .hdict []]⟩
        (Heap.size ⟨[.hdict [("k", .hbool true)], .hdict []]⟩) (.href 1) =
      some (.jdict [])) := by
  have hrun : filterH ⟨[.hdict [("k", .hbool true)], .hdict []]⟩ 10 .PRIVACY
      ⟨20, "m", some (.href 0), some (.href 1)⟩ =
      (⟨[.hdict [("k", .hbool true)], .hdict [], .hdict [("k", .hbool true)],
         .hdict [("k", .hbool true)], .hdict []]⟩,
       .ok (true, ⟨20, "m", some (.href 3), some (.href 4)⟩)) := by
    simp +decide [filterH, filterArgsH, filterResultH, dcVal, dcEntries, dcList,
      sanitizeDictValH, sEntriesH, sEntryValH, sItemsH, sItemH, resStep1,
      resStep2, resStep3, resultSanitizeH, sanitizeMessage, passQuoted, passRun,
      sanitize_query, isQuoteChar, pyTruthyH, isDictH, Heap.get, Heap.alloc,
      Heap.put, Heap.size, updateEntryH, sanitize_page_name_hv, dispatchRule,
      List.lookup, hScalarJ, matVal, logWARNING, defaultRules, defaultMinMask]
  exact ⟨⟨rfl, rfl, hrun⟩,
    c1_filter_non_mutation (.jdict [("k", .jbool true)]) (.jdict []) 20 10 5 "m"
      ⟨[.hdict [("k", .hbool true)]]⟩
      ⟨[.hdict [("k", .hbool true)], .hdict []]⟩
      ⟨[.hdict [("k", .hbool true)], .hdict [], .hdict [("k", .hbool true)],
        .hdict [("k", .hbool true)], .hdict []]⟩
      (.href 0) (.href 1)
      (.ok (true, ⟨20, "m", some (.href 3), some (.href 4)⟩))
      rfl rfl hrun⟩

end LogseqSpec
